import Mathlib

/-!
# openqa-review terminal user interface (`cmd/openqa-review/tui.go`)

A shallow embedding of the model, the render engine and the grouping engine of
`tui.go`, followed by theorems about them.

Conventions of the embedding

* A Go `string` is a sequence of bytes: `Str = List Nat`, every element standing
  for one byte.  `len(s)` is `s.length`, `s[:n]` is `sliceTo s n` (which fails
  where Go panics), `==` is equality of lists.
* A Go `int` is an `Int`: widths, lengths and counters stay far from the 64-bit range.
  The one int64 subtraction on values that the caller chooses freely, in
  `getDateColorcode`, wraps (`wrapInt64`).
* Text written to standard output is returned as the `Str` of bytes written.
  A run-time panic is `none`.
* `fmt` pads to a width counted in runes, so `utf8.RuneCountInString` is embedded.
* `time.Parse`, `Time.Format` and `time.Now` are parameters (`Clock`).
* `gopenqa.Job.JobState()` belongs to an external library; a `Job` carries the
  string it returns in the field `JobState`.
* The mutex of `TUIModel` does not enter the functions: every function is one sequential
  call. Which accesses each method makes under the mutex is recorded in `accesses`.
-/

namespace OpenqaReview

/-! ## Go strings -/

/-- A Go string: its bytes. -/
abbrev Str := List Nat

/-- The bytes of a string literal made of ASCII characters. -/
def lit (s : String) : Str := s.toList.map Char.toNat

/-- The slice expression `s[:n]`; `none` is the run-time panic (slice bounds out of range). -/
def sliceTo (s : Str) (n : Int) : Option Str :=
  if 0 ≤ n ∧ n ≤ (s.length : Int) then some (s.take n.toNat) else none

/-- The function `spaces` of tui.go: `n` blanks, none when `n ≤ 0`. -/
def spaces (n : Int) : Str := List.replicate n.toNat 32

/-! ## unicode/utf8: counting runes -/

/-- Checks that byte `c` lies in the closed range `lo..hi`. -/
def inRange (lo hi c : Nat) : Bool := decide (lo ≤ c) && decide (c ≤ hi)

/-- The tables `first` and `acceptRanges` of unicode/utf8 for a lead byte `c`: the size
of the encoding and the range `lo..hi` allowed for the second byte; `none` for an ASCII
byte and for a byte that cannot start an encoding (both are runes of one byte). -/
def utf8First (c : Nat) : Option (Nat × Nat × Nat) :=
  if 0xC2 ≤ c ∧ c ≤ 0xDF then some (2, 0x80, 0xBF)
  else if c = 0xE0 then some (3, 0xA0, 0xBF)
  else if (0xE1 ≤ c ∧ c ≤ 0xEC) ∨ c = 0xEE ∨ c = 0xEF then some (3, 0x80, 0xBF)
  else if c = 0xED then some (3, 0x80, 0x9F)
  else if c = 0xF0 then some (4, 0x90, 0xBF)
  else if 0xF1 ≤ c ∧ c ≤ 0xF3 then some (4, 0x80, 0xBF)
  else if c = 0xF4 then some (4, 0x80, 0x8F)
  else none

/-- Number of bytes the loop of `utf8.RuneCountInString` advances for the rune that
starts with byte `c` and is followed by the bytes `rest`: the size of a well-formed
encoding, and 1 for ASCII and for every ill-formed or cut-off sequence. -/
def runeSize (c : Nat) (rest : Str) : Nat :=
  match utf8First c with
  | none => 1
  | some (size, lo, hi) =>
    if rest.length + 1 < size then 1
    else if !inRange lo hi (rest.getD 0 0) then 1
    else if size = 2 then 2
    else if !inRange 0x80 0xBF (rest.getD 1 0) then 1
    else if size = 3 then 3
    else if !inRange 0x80 0xBF (rest.getD 2 0) then 1
    else size

/-- The scanning loop of `utf8.RuneCountInString`; `skip` bytes of the current rune are
still to be passed over. -/
def runeCountFrom : Nat → Str → Nat
  | _, [] => 0
  | 0, c :: rest => 1 + runeCountFrom (runeSize c rest - 1) rest
  | skip + 1, _ :: rest => runeCountFrom skip rest

/-- The number of runes `utf8.RuneCountInString(s)`. -/
def RuneCountInString (s : Str) : Nat := runeCountFrom 0 s

/-! ## fmt: the verbs used by tui.go -/

/-- Decimal digits of a natural number, most significant first, put before `acc`. -/
def digitsFrom : Nat → Nat → Str → Str
  | 0, _, acc => acc
  | fuel + 1, n, acc =>
    if n < 10 then (48 + n) :: acc else digitsFrom fuel (n / 10) ((48 + n % 10) :: acc)

/-- The verb `%d` without flags: the decimal representation of an integer. -/
def fmtInt (i : Int) : Str :=
  match i with
  | Int.ofNat n => digitsFrom (n + 1) n []
  | Int.negSucc n => 45 :: digitsFrom (n + 2) (n + 1) []

/-- The padding of `fmt` to width `w`, blanks on the left (`%20s`, `%8d`). -/
def padLeft (w : Nat) (s : Str) : Str :=
  List.replicate (w - RuneCountInString s) 32 ++ s

/-- The padding of `fmt` to width `w` with the minus flag, blanks on the right (`%-12s`). -/
def padRight (w : Nat) (s : Str) : Str :=
  s ++ List.replicate (w - RuneCountInString s) 32

/-! ## ANSI colour codes -/

def ANSI_RED : Str := lit "\x1b[31m"
def ANSI_GREEN : Str := lit "\x1b[32m"
def ANSI_YELLOW : Str := lit "\x1b[33m"
def ANSI_BRIGHTYELLOW : Str := lit "\x1b[33;1m"
def ANSI_BLUE : Str := lit "\x1b[34m"
def ANSI_MAGENTA : Str := lit "\x1b[35m"
def ANSI_CYAN : Str := lit "\x1b[36m"
def ANSI_WHITE : Str := lit "\x1b[37m"
def ANSI_RESET : Str := lit "\x1b[0m"

/-! ## Data model -/

/-- The fields of `gopenqa.Job` that tui.go reads. `JobState` holds the string that the
library accessor `job.JobState()` returns. -/
structure Job where
  ID : Int
  Name : Str
  JobState : Str
  GroupID : Int
  Link : Str
  Tstarted : Str
  Tfinished : Str
  deriving DecidableEq, Repr

/-- The field of `gopenqa.JobGroup` that tui.go reads. -/
structure JobGroup where
  Name : Str
  deriving DecidableEq, Repr

/-- The struct `TUIModel`, without its mutex. The Go map `jobGroups` is an association list
read by `mapGet`. -/
structure TUIModel where
  jobs : List Job
  reviewed : List Int
  jobGroups : List (Int × JobGroup)
  deriving DecidableEq, Repr

/-- The struct `TUI`, without the channel and the key-press callback. -/
structure TUI where
  Model : TUIModel
  status : Str
  tracker : Str
  header : Str
  hideStatus : List Str
  hide : Bool
  showTracker : Bool
  showStatus : Bool
  sorting : Int
  deriving DecidableEq, Repr

/-- The calls into Go's `time` package made by printJob and getDateColorcode.
`Parse s` is `time.Parse("2006-01-02T15:04:05", s)` as seconds since the epoch (`none`
when it returns an error), `Format t` is `Format("2006-01-02-15:04:05")` of the time
with `Unix() = t`, and `Now` is `time.Now().Unix()`. -/
structure Clock where
  Parse : Str → Option Int
  Format : Int → Str
  Now : Int

/-- Seconds since the epoch of Go's zero `time.Time`, which `time.Parse` returns
together with an error. -/
def zeroTimeUnix : Int := -62135596800

/-- A clock for worked examples: it is 2021-01-02 01:00:00 UTC, and the only timestamp
in use is 2021-01-01 00:00:00 UTC (Unix second 1609459200); every other text, the empty
one included, is rejected, as `time.Parse` rejects a text that is not a timestamp. -/
def exampleClock : Clock where
  Parse := fun s => if s = lit "2021-01-01T00:00:00" then some 1609459200 else none
  Format := fun t => if t = 1609459200 then lit "2021-01-01-00:00:00" else []
  Now := 1609549200

/-- The clock of the worked examples, read at the Unix second `now`. -/
def clockAt (now : Int) : Clock :=
  { exampleClock with Now := now }

/-- A finished job for worked examples. -/
def exampleJob : Job where
  ID := 4711
  Name := lit "opensuse-Tumbleweed-DVD-x86_64-Build20210101-textmode@64bit"
  JobState := lit "passed"
  GroupID := 1
  Link := lit "http://openqa/tests/4711"
  Tstarted := lit "2021-01-01T00:00:00"
  Tfinished := lit "2021-01-01T00:00:00"

/-- A job `Job{ID: id, State: state, GroupID: group}`, every other field zero. -/
def bareJob (id : Int) (state : Str) (group : Int) : Job where
  ID := id
  Name := []
  JobState := state
  GroupID := group
  Link := []
  Tstarted := []
  Tfinished := []

/-! ## Model operations -/

/-- The method `TUIModel.Apply`. -/
def TUIModel.Apply (m : TUIModel) (jobs : List Job) : TUIModel :=
  { m with jobs := jobs }

/-- The method `TUIModel.SetJobGroups`. -/
def TUIModel.SetJobGroups (m : TUIModel) (grps : List (Int × JobGroup)) : TUIModel :=
  { m with jobGroups := grps }

/-- The method `TUIModel.AddReviewedJob`. -/
def TUIModel.AddReviewedJob (m : TUIModel) (id : Int) : TUIModel :=
  { m with reviewed := m.reviewed ++ [id] }

/-- One iteration of the loop of RemoveReviewedJob, at position `k` of the range:
`arr` is the backing array of `model.reviewed`, `i` the write index. The statement
`id++` changes the loop variable only, so `i` is handed on as it came. -/
def removeStep (job : Int) (st : List Int × Nat) (k : Nat) : List Int × Nat :=
  let arr := st.1
  let i := st.2
  let id := arr.getD k 0
  if id ≠ job then
    let arr := arr.set i id
    let _id := id + 1
    (arr, i)
  else (arr, i)

/-- The method `TUIModel.RemoveReviewedJob`. -/
def TUIModel.RemoveReviewedJob (m : TUIModel) (job : Int) : TUIModel :=
  let st := (List.range m.reviewed.length).foldl (removeStep job) (m.reviewed, 0)
  { m with reviewed := st.1.take st.2 }

/-! ## Controller configuration -/

/-- The function `CreateTUI`. -/
def CreateTUI : TUI where
  Model := { jobs := [], reviewed := [], jobGroups := [] }
  status := []
  tracker := []
  header := []
  hideStatus := []
  hide := true
  showTracker := true
  showStatus := true
  sorting := 0

/-- The method `TUI.SetHide`. -/
def TUI.SetHide (tui : TUI) (hide : Bool) : TUI := { tui with hide := hide }

/-- The method `TUI.Hide`. -/
def TUI.Hide (tui : TUI) : Bool := tui.hide

/-- The method `TUI.SetHideStatus`. -/
def TUI.SetHideStatus (tui : TUI) (st : List Str) : TUI := { tui with hideStatus := st }

/-- The method `TUI.SetSorting`. -/
def TUI.SetSorting (tui : TUI) (sorting : Int) : TUI := { tui with sorting := sorting }

/-- The method `TUI.Sorting`. -/
def TUI.Sorting (tui : TUI) : Int := tui.sorting

/-- The method `TUI.SetStatus`. -/
def TUI.SetStatus (tui : TUI) (status : Str) : TUI := { tui with status := status }

/-- The method `TUI.Status`. -/
def TUI.Status (tui : TUI) : Str := tui.status

/-- The method `TUI.SetTracker`. -/
def TUI.SetTracker (tui : TUI) (tracker : Str) : TUI := { tui with tracker := tracker }

/-- The method `TUI.SetShowTracker`. -/
def TUI.SetShowTracker (tui : TUI) (tracker : Bool) : TUI := { tui with showTracker := tracker }

/-- The method `TUI.ShowTracker`. -/
def TUI.ShowTracker (tui : TUI) : Bool := tui.showTracker

/-- The method `TUI.SetHeader`. -/
def TUI.SetHeader (tui : TUI) (header : Str) : TUI := { tui with header := header }

/-! ## Render engine -/

/-- The function `getStateColorcode`. -/
def getStateColorcode (state : Str) : Str :=
  if state = lit "scheduled" ∨ state = lit "assigned" then ANSI_BLUE
  else if state = lit "done" ∨ state = lit "passed" then ANSI_GREEN
  else if state = lit "softfail" ∨ state = lit "softfailed" then ANSI_YELLOW
  else if state = lit "fail" ∨ state = lit "failed" then ANSI_RED
  else if state = lit "cancelled" ∨ state = lit "user_cancelled" then ANSI_MAGENTA
  else if state = lit "running" then ANSI_CYAN
  else ANSI_WHITE

/-- The value of an int64 operation whose exact result is `x`: Go wraps around, so the
result is the integer between `-2^63` and `2^63 - 1` that differs from `x` by a multiple
of `2^64`. -/
def wrapInt64 (x : Int) : Int := (x + 2 ^ 63) % 2 ^ 64 - 2 ^ 63

/-- The function `getDateColorcode`, on the Unix seconds `t` of its argument. Both
`now.Unix()` and `t.Unix()` are int64 values and their difference is an int64
subtraction. -/
def getDateColorcode (clk : Clock) (t : Int) : Str :=
  let now := clk.Now
  let diff := wrapInt64 (now - t)
  if diff > 2 * 24 * 60 * 60 then ANSI_RED
  else if diff > 24 * 60 * 60 then ANSI_BRIGHTYELLOW
  else ANSI_WHITE

/-- The variable `timestamp` of printJob when the layout is chosen, as Unix seconds:
the parsed finish time (the epoch if it does not parse), or for a running job whatever
`time.Parse` returns for the start time (the zero time if it does not parse). -/
def jobTimestamp (clk : Clock) (job : Job) : Int :=
  let timestamp : Int :=
    match clk.Parse job.Tfinished with
    | some t => t
    | none => 0
  let state := job.JobState
  if state = lit "running" then
    match clk.Parse job.Tstarted with
    | some t => t
    | none => zeroTimeUnix
  else timestamp

/-- The variable `c1` of printJob, the colour of the date. -/
def jobDateColor (clk : Clock) (job : Job) : Str :=
  let c1 := ANSI_WHITE
  let state := job.JobState
  if state = lit "running" then c1 else getDateColorcode clk (jobTimestamp clk job)

/-- The variable `tStr` of printJob, the text of the timestamp. -/
def jobTimeText (clk : Clock) (job : Job) : Str :=
  let tStr : Str := []
  let state := job.JobState
  let timestamp := jobTimestamp clk job
  if state ≠ lit "scheduled" ∧ timestamp > 0 then clk.Format timestamp else tStr

/-- The function `printJob`: the bytes of the line written for `job` on a terminal of
`width` columns, or `none` if a slice of the name is out of range. -/
def printJob (clk : Clock) (job : Job) (width : Int) : Option Str :=
  let c1 := jobDateColor clk job
  let tStr := jobTimeText clk job
  let state := job.JobState
  let c2 := getStateColorcode state
  if width > 90 then do
    let cname := job.Name
    let nName : Int := cname.length
    let cname ← if width < 89 + nName then sliceTo cname (width - 89) else pure cname
    pure (c1 ++ padLeft 20 tStr ++ ANSI_RESET ++ lit "    " ++ padLeft 8 (fmtInt job.ID)
      ++ lit " " ++ c2 ++ padRight 12 state ++ (ANSI_RESET ++ ANSI_WHITE) ++ lit " "
      ++ padLeft 40 job.Link ++ lit " | " ++ cname ++ lit "\n")
  else if width > 60 then do
    let link := job.Link
    let link := if link = [] then padRight 40 (fmtInt job.ID) else link
    let cname := job.Name
    let nName : Int := cname.length
    let cname ← if width < 58 + nName then sliceTo cname (width - 58) else pure cname
    pure (padLeft 40 link ++ lit " " ++ c2 ++ padRight 12 state ++ (ANSI_RESET ++ ANSI_WHITE)
      ++ lit " | " ++ cname ++ lit "\n")
  else do
    let cname := job.Name
    let cname ←
      if 13 + (job.Name.length : Int) > width then
        if width > 13 then sliceTo cname (width - 13) else pure []
      else pure cname
    pure (c2 ++ padRight 12 state ++ ANSI_RESET ++ lit " " ++ cname ++ lit "\n")

/-! ## Hide filter and unsorted listing -/

/-- The loop of hideJob over the hide-status list. -/
def hideLoop (state : Str) : List Str → Bool
  | [] => false
  | s :: rest => if state = s then true else hideLoop state rest

/-- The method `TUI.hideJob`. -/
def hideJob (tui : TUI) (job : Job) : Bool :=
  if !tui.hide then false
  else
    let state := job.JobState
    hideLoop state tui.hideStatus

/-- The method `TUI.printJobs` (the unused height is left out): the bytes written. -/
def printJobs (clk : Clock) (tui : TUI) (width : Int) : Option Str :=
  tui.Model.jobs.foldlM
    (fun out job =>
      if !hideJob tui job then do
        let line ← printJob clk job width
        pure (out ++ line)
      else pure out)
    []

/-! ## Go maps and package sort -/

/-- The map read `m[k]` with its presence flag. A Go map is an association list with at
most one entry per key. -/
def mapGet {κ α : Type} [DecidableEq κ] : List (κ × α) → κ → Option α
  | [], _ => none
  | (k1, v) :: m, k => if k1 = k then some v else mapGet m k

/-- The map write `m[k] = v`. -/
def mapSet {κ α : Type} [DecidableEq κ] : List (κ × α) → κ → α → List (κ × α)
  | [], k, v => [(k, v)]
  | (k1, v1) :: m, k, v => if k1 = k then (k1, v) :: m else (k1, v1) :: mapSet m k v

/-- The keys a `range` over the map visits. Go leaves their order unspecified; both uses
in tui.go sort the keys before anything else is done with them. -/
def mapKeys {κ α : Type} (m : List (κ × α)) : List κ := m.map Prod.fst

/-- The order `<=` of Go strings: byte-wise lexicographic. -/
def strLE : Str → Str → Bool
  | [], _ => true
  | _ :: _, [] => false
  | a :: as, b :: bs => if a < b then true else if b < a then false else strLE as bs

/-- The call `sort.Ints`. -/
def sortInts (l : List Int) : List Int := l.insertionSort (· ≤ ·)

/-- The call `sort.Strings`. -/
def sortStrings (l : List Str) : List Str := l.insertionSort (fun a b => strLE a b = true)

/-- The function `sortedKeys`. -/
def sortedKeys (vals : List (Str × Int)) : List Str :=
  let ret := mapKeys vals
  sortStrings ret

/-! ## Grouped listing -/

/-- One iteration of the first loop of printJobsByGroup: the entry of the group of `job`
is created if it does not exist, then `job` is appended to it. -/
def groupAdd (groups : List (Int × List Job)) (job : Job) : List (Int × List Job) :=
  let groups :=
    match mapGet groups job.GroupID with
    | some _ => groups
    | none => mapSet groups job.GroupID []
  mapSet groups job.GroupID ((mapGet groups job.GroupID).getD [] ++ [job])

/-- First loop of printJobsByGroup: the map from group ID to the jobs of the group. -/
def groupJobs (jobs : List Job) : List (Int × List Job) :=
  jobs.foldl groupAdd []

/-- Second loop of printJobsByGroup and `sort.Ints`: the group IDs in printing order. -/
def sortedGroupIDs (groups : List (Int × List Job)) : List Int :=
  let grpIDs := mapKeys groups
  sortInts grpIDs

/-- The variables of the loop over the jobs of one group: bytes written so far, the
status counters `statC` and the counter `hidden`. -/
structure GroupAcc where
  out : Str
  statC : List (Str × Int)
  hidden : Int
  deriving DecidableEq, Repr

/-- One iteration of the loop over the jobs of one group. -/
def groupStep (clk : Clock) (tui : TUI) (width : Int) (acc : GroupAcc) (job : Job) :
    Option GroupAcc := do
  let acc ←
    if !hideJob tui job then do
      let line ← printJob clk job width
      pure { acc with out := acc.out ++ line }
    else pure { acc with hidden := acc.hidden + 1 }
  let status := job.JobState
  let statC :=
    match mapGet acc.statC status with
    | some c => mapSet acc.statC status (c + 1)
    | none => mapSet acc.statC status 1
  pure { acc with statC := statC }

/-- The loop over the jobs of one group, started after the header line is written. -/
def groupLoop (clk : Clock) (tui : TUI) (width : Int) (header : Str) (jobs : List Job) :
    Option GroupAcc :=
  jobs.foldlM (groupStep clk tui width) { out := header, statC := [], hidden := 0 }

/-- The pairs `(s, statC[s])` that the footer loop visits, in its order. -/
def statBreakdown (statC : List (Str × Int)) : List (Str × Int) :=
  (sortedKeys statC).map (fun s => (s, (mapGet statC s).getD 0))

/-- The footer of one group: the total, the status breakdown, the hidden tally and the
line end. -/
def groupFooter (total : Int) (statC : List (Str × Int)) (hidden : Int) : Str :=
  let out := lit "Total: " ++ fmtInt total
  let out := (statBreakdown statC).foldl
    (fun out sc => out ++ (lit ", " ++ sc.1 ++ lit ": " ++ fmtInt sc.2)) out
  let out := if hidden > 0 then out ++ (lit " (hidden: " ++ fmtInt hidden ++ lit ")") else out
  out ++ lit "\n"

/-- The header line of group `id`; a group missing from `jobGroups` has the empty name. -/
def groupHeader (tui : TUI) (id : Int) : Str :=
  let grp := (mapGet tui.Model.jobGroups id).getD { Name := [] }
  lit "===== " ++ grp.Name ++ lit " ====================\n"

/-- The body of the loop over the sorted group IDs: everything written for group `id`. -/
def printGroup (clk : Clock) (tui : TUI) (width : Int) (groups : List (Int × List Job))
    (id : Int) : Option Str := do
  let jobs := (mapGet groups id).getD []
  let acc ← groupLoop clk tui width (groupHeader tui id) jobs
  pure (acc.out ++ groupFooter jobs.length acc.statC acc.hidden)

/-- The method `TUI.printJobsByGroup` (the unused height is left out): the bytes written. -/
def printJobsByGroup (clk : Clock) (tui : TUI) (width : Int) : Option Str :=
  let groups := groupJobs tui.Model.jobs
  let grpIDs := sortedGroupIDs groups
  grpIDs.foldlM
    (fun out id => do
      let s ← printGroup clk tui width groups id
      pure (out ++ s))
    []

/-! ## Grouped listing as the specification words it

These definitions follow the text of the specification, not the code; the theorems on
printJobsByGroup compare the code with them. -/

/-- The jobs of group `g`, in the order of the job sequence. -/
def jobsOf (jobs : List Job) (g : Int) : List Job :=
  jobs.filter (fun j => j.GroupID = g)

/-- The line of a job: what printJob writes for it. -/
def lineOf (clk : Clock) (width : Int) (job : Job) : Str :=
  (printJob clk job width).getD []

/-- The distinct states of the jobs `js`, in ascending lexicographic order. -/
def specStates (js : List Job) : List Str :=
  sortStrings ((js.map Job.JobState).dedup)

/-- The footer of a group with the jobs `js`: the total, then for each distinct state its
number of jobs, then the number of hidden jobs if there is one, then the line end. -/
def specFooter (tui : TUI) (js : List Job) : Str :=
  lit "Total: " ++ fmtInt js.length
    ++ ((specStates js).map (fun s =>
          lit ", " ++ s ++ lit ": " ++ fmtInt (js.countP (fun j => j.JobState = s)))).flatten
    ++ (if 0 < js.countP (fun j => hideJob tui j) then
          lit " (hidden: " ++ fmtInt (js.countP (fun j => hideJob tui j)) ++ lit ")"
        else [])
    ++ lit "\n"

/-- Invariant of the loop over the jobs of one group, after the jobs `done`: the lines of
the visible ones follow the header, `hidden` counts the hidden ones, and `statC` binds
every state that occurred to its number of jobs. -/
def GroupInv (clk : Clock) (tui : TUI) (width : Int) (header : Str) (done : List Job)
    (acc : GroupAcc) : Prop :=
  acc.out = header
      ++ ((done.filter (fun j => !hideJob tui j)).map (lineOf clk width)).flatten ∧
  acc.hidden = ((done.countP (fun j => hideJob tui j) : Nat) : Int) ∧
  (mapKeys acc.statC).Nodup ∧
  ∀ s, mapGet acc.statC s
    = if done.countP (fun j => j.JobState = s) = 0 then none
      else some ((done.countP (fun j => j.JobState = s) : Nat) : Int)

/-! ## Redraw -/

/-- The struct `winsize` that the ioctl fills: four fields of type uint16. -/
structure winsize where
  Row : Nat
  Col : Nat
  Xpixel : Nat
  Ypixel : Nat
  deriving DecidableEq, Repr

/-- The function `terminalSize`: `ret` is the first result of the `TIOCGWINSZ` system call
converted to `int`, and `ws` the struct as the call left it. -/
def terminalSize (ret : Int) (ws : winsize) : Int × Int :=
  if ret = 0 then (((ws.Col % 2 ^ 16 : Nat) : Int), ((ws.Row % 2 ^ 16 : Nat) : Int))
  else (80, 24)

/-- The bytes written by the method `TUI.Clear`. -/
def TUI.Clear : Str := lit "\x1b[2J\x1b[;H"

/-- The help line written under the header. -/
def helpLine : Str :=
  lit "q:Quit   r:Refresh   h:Hide/Show jobs   m:Toggle RabbitMQ tracker   s:Switch sorting"

/-- The body of the method `TUI.Update` from the point where `terminalSize` has returned
`width` and `height`: the state after the call and the bytes written. -/
def TUI.UpdateAt (clk : Clock) (tui : TUI) (width height : Int) : Option (TUI × Str) :=
  if width < 0 ∨ height < 0 then some (tui, [])
  else do
    let out := TUI.Clear
    let out :=
      if tui.header ≠ [] then
        out ++ (tui.header ++ lit "\n") ++ (helpLine ++ lit "\n") ++ lit "\n"
      else out
    let body ←
      if tui.sorting = 1 then printJobsByGroup clk tui width
      else printJobs clk tui width
    let out := out ++ body
    let shownStatus := false
    let shown : Str × Bool :=
      if tui.showStatus = true ∧ tui.status ≠ [] then
        (out ++ lit "\n" ++ (tui.status ++ lit "\n"), true)
      else (out, shownStatus)
    let out := shown.1
    let shownStatus := shown.2
    if tui.showTracker = true ∧ tui.tracker ≠ [] then
      let out := if !shownStatus then out ++ lit "\n" else out
      if (tui.tracker.length : Int) ≤ width then
        pure (tui, out ++ (spaces (width - (tui.tracker.length : Int)) ++ tui.tracker ++ lit "\n"))
      else do
        let cut ← sliceTo tui.tracker width
        pure (tui, out ++ (cut ++ lit "\n"))
    else pure (tui, out)

/-- The method `TUI.Update`, for the given answer `ret`, `ws` of the terminal query: the
state after the call and the bytes written. -/
def TUI.Update (clk : Clock) (tui : TUI) (ret : Int) (ws : winsize) : Option (TUI × Str) :=
  let size := terminalSize ret ws
  let width := size.1
  let height := size.2
  TUI.UpdateAt clk tui width height

/-! ## The frame as the specification words it

The parts of one frame in the order of the Update algorithm: clear sequence, header with
help line, job listing, status line, tracker line. The theorems on Update compare the
code with them. -/

/-- The header, the help line and an empty line, if a header is configured. -/
def frameHead (tui : TUI) : Str :=
  if tui.header ≠ [] then (tui.header ++ lit "\n") ++ (helpLine ++ lit "\n") ++ lit "\n"
  else []

/-- The job listing for the sort mode: grouped for mode 1, unsorted for every other one. -/
def jobListing (clk : Clock) (tui : TUI) (width : Int) : Str :=
  if tui.sorting = 1 then
    ((sortedGroupIDs (groupJobs tui.Model.jobs)).map
      (fun g => groupHeader tui g
        ++ (((jobsOf tui.Model.jobs g).filter (fun j => !hideJob tui j)).map
              (lineOf clk width)).flatten
        ++ specFooter tui (jobsOf tui.Model.jobs g))).flatten
  else ((tui.Model.jobs.filter (fun j => !hideJob tui j)).map (lineOf clk width)).flatten

/-- An empty line and the status line, if the status is shown and not empty. -/
def frameStatus (tui : TUI) : Str :=
  if tui.showStatus = true ∧ tui.status ≠ [] then lit "\n" ++ (tui.status ++ lit "\n")
  else []

/-- The tracker text right-justified to `width`, or cut to `width` if it does not fit. -/
def trackerLine (tui : TUI) (width : Int) : Str :=
  if (tui.tracker.length : Int) ≤ width then
    List.replicate (width - (tui.tracker.length : Int)).toNat 32 ++ tui.tracker
  else tui.tracker.take width.toNat

/-- The tracker line, after an empty line unless the status line was written, if the
tracker is shown and not empty. -/
def frameTracker (tui : TUI) (width : Int) : Str :=
  if tui.showTracker = true ∧ tui.tracker ≠ [] then
    (if tui.showStatus = true ∧ tui.status ≠ [] then [] else lit "\n")
      ++ (trackerLine tui width ++ lit "\n")
  else []

/-- A model with the one job of the worked examples, configured as CreateTUI leaves it. -/
def exampleTUI : TUI :=
  { CreateTUI with Model := CreateTUI.Model.Apply [exampleJob] }

/-! ## The line of a job in segments

A line of printJob, cut into the colour codes and the texts between them, in order. The
width of a line is the number of runes of its texts. -/

/-- A piece of a line: an ANSI colour code or displayed text. -/
inductive Seg where
  | code (bytes : Str)
  | text (bytes : Str)
  deriving DecidableEq, Repr

/-- The bytes of a piece. -/
def Seg.bytes : Seg → Str
  | Seg.code b => b
  | Seg.text b => b

/-- The bytes of a piece that are displayed: none for a colour code. -/
def Seg.shown : Seg → Str
  | Seg.code _ => []
  | Seg.text b => b

/-- The bytes of all pieces, in order. -/
def renderSegs (segs : List Seg) : Str := (segs.map Seg.bytes).flatten

/-- The pieces with the colour codes removed. -/
def visibleSegs (segs : List Seg) : Str := (segs.map Seg.shown).flatten

/-- The pieces of the full line (width above 90), without the newline. -/
def wideSegs (clk : Clock) (job : Job) (width : Int) : List Seg :=
  [ Seg.code (jobDateColor clk job),
    Seg.text (padLeft 20 (jobTimeText clk job)),
    Seg.code ANSI_RESET,
    Seg.text (lit "    " ++ padLeft 8 (fmtInt job.ID) ++ lit " "),
    Seg.code (getStateColorcode job.JobState),
    Seg.text (padRight 12 job.JobState),
    Seg.code (ANSI_RESET ++ ANSI_WHITE),
    Seg.text (lit " " ++ padLeft 40 job.Link ++ lit " | " ++ job.Name.take (width - 89).toNat) ]

/-- The pieces of the line without timestamp (width 61 to 90), without the newline. -/
def mediumSegs (job : Job) (width : Int) : List Seg :=
  [ Seg.text ((if job.Link = [] then padRight 40 (fmtInt job.ID) else padLeft 40 job.Link)
      ++ lit " "),
    Seg.code (getStateColorcode job.JobState),
    Seg.text (padRight 12 job.JobState),
    Seg.code (ANSI_RESET ++ ANSI_WHITE),
    Seg.text (lit " | " ++
      (if 58 + (job.Name.length : Int) ≤ width then job.Name
       else job.Name.take (width - 58).toNat)) ]

/-- The pieces of the line of state and name (width up to 60), without the newline. -/
def narrowSegs (job : Job) (width : Int) : List Seg :=
  [ Seg.code (getStateColorcode job.JobState),
    Seg.text (padRight 12 job.JobState),
    Seg.code ANSI_RESET,
    Seg.text (lit " " ++ job.Name.take (width - 13).toNat) ]

/-! ## Lock discipline

The mutex of `TUIModel` does not change what one call computes, so the functions above
leave it out. What it is meant to order is recorded here: for each method, the lock and
unlock operations and the accesses to the shared fields, in program order (a deferred
unlock comes last). -/

/-- The shared fields of `TUI` and `TUIModel`. -/
inductive Field where
  | jobs | reviewed | jobGroups
  | status | tracker | header | hideStatus | hide | showTracker | showStatus | sorting
  deriving DecidableEq, Repr

/-- An operation on the mutex or an access to a shared field. -/
inductive Access where
  | lock
  | unlock
  | read (f : Field)
  | write (f : Field)
  deriving DecidableEq, Repr

/-- The methods of `TUIModel` and `TUI` that touch shared fields. -/
inductive Method where
  | Apply | SetJobGroups | AddReviewedJob | RemoveReviewedJob
  | SetHide | Hide | SetHideStatus | SetSorting | Sorting | SetStatus | Status
  | SetTracker | SetShowTracker | ShowTracker | SetHeader | Update
  deriving DecidableEq, Repr

/-- The mutex operations and field accesses of each method, in program order. Update
reads the hide flag and the hide-status list in hideJob, once per job, and the job-group
map in the grouped listing. -/
def accesses : Method → List Access
  | Method.Apply => [Access.lock, Access.write Field.jobs, Access.unlock]
  | Method.SetJobGroups => [Access.write Field.jobGroups]
  | Method.AddReviewedJob => [Access.read Field.reviewed, Access.write Field.reviewed]
  | Method.RemoveReviewedJob => [Access.read Field.reviewed, Access.write Field.reviewed]
  | Method.SetHide => [Access.write Field.hide]
  | Method.Hide => [Access.read Field.hide]
  | Method.SetHideStatus => [Access.write Field.hideStatus]
  | Method.SetSorting => [Access.lock, Access.write Field.sorting, Access.unlock]
  | Method.Sorting => [Access.read Field.sorting]
  | Method.SetStatus => [Access.lock, Access.write Field.status, Access.unlock]
  | Method.Status => [Access.read Field.status]
  | Method.SetTracker => [Access.lock, Access.write Field.tracker, Access.unlock]
  | Method.SetShowTracker => [Access.lock, Access.write Field.showTracker, Access.unlock]
  | Method.ShowTracker => [Access.read Field.showTracker]
  | Method.SetHeader => [Access.lock, Access.write Field.header, Access.unlock]
  | Method.Update =>
    [Access.lock, Access.read Field.header, Access.read Field.sorting, Access.read Field.jobs,
      Access.read Field.hide, Access.read Field.hideStatus, Access.read Field.jobGroups,
      Access.read Field.showStatus, Access.read Field.status, Access.read Field.showTracker,
      Access.read Field.tracker, Access.unlock]

/-- Checks that every field access in the sequence happens while the mutex is held;
`held` tells whether it is held at the start. -/
def lockedAccess (held : Bool) : List Access → Bool
  | [] => true
  | Access.lock :: rest => lockedAccess true rest
  | Access.unlock :: rest => lockedAccess false rest
  | Access.read _ :: rest => held && lockedAccess held rest
  | Access.write _ :: rest => held && lockedAccess held rest

/-- A method is guarded when all its field accesses happen under the mutex. -/
def guarded (m : Method) : Bool := lockedAccess false (accesses m)

/-! ## Scenarios -/

/-- The model holds `Job{ID: 1, State: "running"}` and `Job{ID: 2, State: "passed"}`, hiding
is enabled with the hide-set `passed`, and the listing is unsorted. -/
def hideScenario : TUI :=
  { (CreateTUI.SetHide true).SetHideStatus [lit "passed"] with
    Model := CreateTUI.Model.Apply [bareJob 1 (lit "running") 0, bareJob 2 (lit "passed") 0] }

/-- Grouped listing of two jobs in group 5, in the states `failed` and `passed`, and one
job in group 3, in the state `running`. -/
def groupScenario : TUI :=
  { CreateTUI.SetSorting 1 with
    Model := CreateTUI.Model.Apply
      [bareJob 1 (lit "failed") 5, bareJob 2 (lit "passed") 5, bareJob 3 (lit "running") 3] }

/-! ## Lemmas on strings, runes and padding -/

theorem utf8First_bounds (c size lo hi : Nat) (h : utf8First c = some (size, lo, hi)) :
    2 ≤ size ∧ size ≤ 4 ∧ 128 ≤ lo ∧ 128 ≤ c := by
  unfold utf8First at h
  split_ifs at h <;> simp at h <;> omega

theorem runeSize_pos (c : Nat) (rest : Str) : 1 ≤ runeSize c rest := by
  unfold runeSize
  split
  · exact Nat.le_refl 1
  · next size lo hi h =>
    have := utf8First_bounds c size lo hi h
    split_ifs <;> omega

theorem runeSize_le (c : Nat) (rest : Str) : runeSize c rest ≤ rest.length + 1 := by
  unfold runeSize
  split
  · omega
  · next size lo hi h =>
    have := utf8First_bounds c size lo hi h
    split_ifs <;> omega

theorem runeSize_ascii (c : Nat) (rest : Str) (h : c < 128) : runeSize c rest = 1 := by
  unfold runeSize
  split
  · rfl
  · next size lo hi h1 =>
    have := utf8First_bounds c size lo hi h1
    omega

/-- A rune never runs over an ASCII byte: the size of a rune read in front of `a ++ c :: b`
is its size read in front of `a`. -/
theorem runeSize_append_ascii (x : Nat) (a : Str) (c : Nat) (b : Str) (hc : c < 128) :
    runeSize x (a ++ c :: b) = runeSize x a := by
  unfold runeSize
  split
  · rfl
  · next size lo hi h =>
    have hb := utf8First_bounds x size lo hi h
    have hr : ∀ lo hi, 128 ≤ lo → inRange lo hi c = false := by
      intro lo hi hlo
      simp [inRange]
      omega
    have hr1 := hr lo hi hb.2.2.1
    have hr2 := hr 128 191 (Nat.le_refl _)
    obtain ⟨h2, h4, -, -⟩ := hb
    interval_cases size
    · rcases a with _ | ⟨a1, a⟩
      · simp [hr1]
      · simp
        split_ifs <;> first | rfl | omega
    · rcases a with _ | ⟨a1, _ | ⟨a2, a⟩⟩
      · simp [hr1]
      · simp [hr2]
      · simp
        split_ifs <;> first | rfl | omega
    · rcases a with _ | ⟨a1, _ | ⟨a2, _ | ⟨a3, a⟩⟩⟩
      · simp [hr1]
      · simp [hr2]
      · simp [hr2]
      · simp
        split_ifs <;> first | rfl | omega

theorem runeCountFrom_zero_cons (c : Nat) (rest : Str) :
    runeCountFrom 0 (c :: rest) = 1 + runeCountFrom (runeSize c rest - 1) rest := rfl

theorem runeCountFrom_succ_cons (k c : Nat) (rest : Str) :
    runeCountFrom (k + 1) (c :: rest) = runeCountFrom k rest := rfl

theorem runeCountFrom_append_ascii (a : Str) (c : Nat) (b : Str) (hc : c < 128) :
    ∀ skip, skip ≤ a.length →
      runeCountFrom skip (a ++ c :: b) = runeCountFrom skip a + 1 + runeCountFrom 0 b := by
  induction a with
  | nil =>
    intro skip h
    have : skip = 0 := by simpa using h
    subst this
    rw [List.nil_append, runeCountFrom_zero_cons, runeSize_ascii c b hc]
    simp [runeCountFrom]
  | cons x a ih =>
    intro skip h
    cases skip with
    | zero =>
      have h1 := runeSize_le x a
      have h2 := runeSize_pos x a
      rw [List.cons_append, runeCountFrom_zero_cons, runeCountFrom_zero_cons,
        runeSize_append_ascii x a c b hc, ih _ (by omega)]
      omega
    | succ k =>
      rw [List.cons_append, runeCountFrom_succ_cons, runeCountFrom_succ_cons]
      exact ih k (by simpa using h)

/-- Rune count across an ASCII byte. -/
theorem runeCount_append_ascii (a : Str) (c : Nat) (b : Str) (hc : c < 128) :
    RuneCountInString (a ++ c :: b) = RuneCountInString a + 1 + RuneCountInString b :=
  runeCountFrom_append_ascii a c b hc 0 (Nat.zero_le _)

theorem runeCountFrom_le (s : Str) : ∀ skip, runeCountFrom skip s ≤ s.length := by
  induction s with
  | nil => intro skip; simp [runeCountFrom]
  | cons x s ih =>
    intro skip
    cases skip with
    | zero =>
      rw [runeCountFrom_zero_cons, List.length_cons]
      have := ih (runeSize x s - 1)
      omega
    | succ k =>
      rw [runeCountFrom_succ_cons, List.length_cons]
      have := ih k
      omega

/-- A string has at most as many runes as bytes. -/
theorem runeCount_le_length (s : Str) : RuneCountInString s ≤ s.length :=
  runeCountFrom_le s 0

/-- An ASCII string has as many runes as bytes. -/
theorem runeCount_ascii (s : Str) (h : ∀ b ∈ s, b < 128) : RuneCountInString s = s.length := by
  induction s with
  | nil => rfl
  | cons x s ih =>
    have hx : x < 128 := h x (by simp)
    have := ih (fun b hb => h b (by simp [hb]))
    unfold RuneCountInString at *
    rw [runeCountFrom_zero_cons, runeSize_ascii x s hx, List.length_cons, Nat.sub_self, this]
    omega

theorem runeCount_nil : RuneCountInString [] = 0 := rfl

theorem runeCount_blank_cons (b : Str) :
    RuneCountInString (32 :: b) = 1 + RuneCountInString b := by
  have := runeCount_append_ascii [] 32 b (by decide)
  simpa [runeCount_nil, Nat.add_comm] using this

theorem runeCount_blanks_append (n : Nat) (b : Str) :
    RuneCountInString (List.replicate n 32 ++ b) = n + RuneCountInString b := by
  induction n with
  | zero => simp
  | succ n ih =>
    rw [List.replicate_succ, List.cons_append, runeCount_blank_cons, ih]
    omega

theorem runeCount_blanks (n : Nat) : RuneCountInString (List.replicate n 32) = n := by
  have := runeCount_blanks_append n []
  simpa [runeCount_nil] using this

theorem padLeft_of_le (w : Nat) (s : Str) (h : w ≤ RuneCountInString s) : padLeft w s = s := by
  simp [padLeft, Nat.sub_eq_zero_of_le h]

theorem digitsFrom_ascii : ∀ (fuel n : Nat) (acc : Str), (∀ b ∈ acc, b < 128) →
    ∀ b ∈ digitsFrom fuel n acc, b < 128 := by
  intro fuel
  induction fuel with
  | zero => intro n acc h; simpa [digitsFrom] using h
  | succ fuel ih =>
    intro n acc h
    unfold digitsFrom
    split_ifs with hn
    · intro b hb
      rcases List.mem_cons.1 hb with rfl | hb
      · omega
      · exact h b hb
    · apply ih
      intro b hb
      rcases List.mem_cons.1 hb with rfl | hb
      · omega
      · exact h b hb

theorem fmtInt_ascii (i : Int) : ∀ b ∈ fmtInt i, b < 128 := by
  unfold fmtInt
  split
  · exact digitsFrom_ascii _ _ [] (by simp)
  · intro b hb
    rcases List.mem_cons.1 hb with rfl | hb
    · decide
    · exact digitsFrom_ascii _ _ [] (by simp) b hb

/-- Padding an ASCII text on the right to `w` columns gives at least `w` runes. -/
theorem runeCount_padRight_ascii (w : Nat) (s : Str) (h : ∀ b ∈ s, b < 128) :
    w ≤ RuneCountInString (padRight w s) := by
  have hs := runeCount_ascii s h
  have : ∀ b ∈ padRight w s, b < 128 := by
    intro b hb
    simp only [padRight, List.mem_append, List.mem_replicate] at hb
    rcases hb with hb | ⟨_, rfl⟩
    · exact h b hb
    · decide
  rw [runeCount_ascii _ this]
  simp only [padRight, List.length_append, List.length_replicate, hs]
  omega

theorem sliceTo_eq (s : Str) (n : Int) (h0 : 0 ≤ n) (h1 : n ≤ (s.length : Int)) :
    sliceTo s n = some (s.take n.toNat) := by
  simp [sliceTo, h0, h1]

/-- Rune count across a run of blanks. -/
theorem runeCount_append_blanks (a : Str) (k : Nat) (b : Str) :
    RuneCountInString (a ++ (List.replicate k 32 ++ 32 :: b))
      = RuneCountInString a + (k + 1) + RuneCountInString b := by
  have e : List.replicate k 32 ++ 32 :: b = 32 :: (List.replicate k 32 ++ b) := by
    induction k with
    | zero => rfl
    | succ k ih => rw [List.replicate_succ, List.cons_append, ih, List.cons_append]
  rw [e, runeCount_append_ascii _ _ _ (by decide), runeCount_blanks_append]
  omega

/-! ## The three layouts of printJob -/

/-- The line of printJob on a terminal wider than 90 columns. -/
theorem printJob_wide_eq (clk : Clock) (job : Job) (W : Int) (hW : 90 < W) :
    printJob clk job W = some (jobDateColor clk job ++ padLeft 20 (jobTimeText clk job)
      ++ ANSI_RESET ++ lit "    " ++ padLeft 8 (fmtInt job.ID) ++ lit " "
      ++ getStateColorcode job.JobState ++ padRight 12 job.JobState
      ++ (ANSI_RESET ++ ANSI_WHITE) ++ lit " " ++ padLeft 40 job.Link ++ lit " | "
      ++ job.Name.take (W - 89).toNat ++ lit "\n") := by
  unfold printJob
  simp only [gt_iff_lt, hW, if_true]
  by_cases h : W < 89 + (job.Name.length : Int)
  · simp [h, sliceTo_eq job.Name (W - 89) (by omega) (by omega)]
  · have : job.Name.length ≤ (W - 89).toNat := by omega
    simp [h, List.take_of_length_le this]

/-- The line of printJob on a terminal of 61 to 90 columns. -/
theorem printJob_medium_eq (clk : Clock) (job : Job) (W : Int) (h60 : 60 < W) (h90 : W ≤ 90) :
    printJob clk job W = some (
      (if job.Link = [] then padRight 40 (fmtInt job.ID) else padLeft 40 job.Link)
      ++ lit " " ++ getStateColorcode job.JobState ++ padRight 12 job.JobState
      ++ (ANSI_RESET ++ ANSI_WHITE) ++ lit " | "
      ++ (if 58 + (job.Name.length : Int) ≤ W then job.Name
          else job.Name.take (W - 58).toNat)
      ++ lit "\n") := by
  unfold printJob
  have h1 : ¬ W > 90 := by omega
  have hpad : padLeft 40 (padRight 40 (fmtInt job.ID)) = padRight 40 (fmtInt job.ID) :=
    padLeft_of_le _ _ (runeCount_padRight_ascii 40 _ (fmtInt_ascii job.ID))
  simp only [h1, gt_iff_lt, h60, if_true, if_false]
  by_cases hl : job.Link = [] <;> by_cases h : W < 58 + (job.Name.length : Int)
  · have h2 : ¬ (58 + (job.Name.length : Int) ≤ W) := by omega
    simp [hl, h, h2, hpad, sliceTo_eq job.Name (W - 58) (by omega) (by omega)]
  · have h2 : 58 + (job.Name.length : Int) ≤ W := by omega
    simp [hl, h, h2, hpad]
  · have h2 : ¬ (58 + (job.Name.length : Int) ≤ W) := by omega
    simp [hl, h, h2, sliceTo_eq job.Name (W - 58) (by omega) (by omega)]
  · have h2 : 58 + (job.Name.length : Int) ≤ W := by omega
    simp [hl, h, h2]

/-- The line of printJob on a terminal of at most 60 columns. -/
theorem printJob_narrow_eq (clk : Clock) (job : Job) (W : Int) (h60 : W ≤ 60) :
    printJob clk job W = some (getStateColorcode job.JobState ++ padRight 12 job.JobState
      ++ ANSI_RESET ++ (lit " " ++ job.Name.take (W - 13).toNat) ++ lit "\n") := by
  unfold printJob
  have h1 : ¬ W > 90 := by omega
  have h2 : ¬ W > 60 := by omega
  simp only [h1, h2, if_false]
  by_cases h : 13 + (job.Name.length : Int) > W
  · by_cases h3 : W > 13
    · simp [h, h3, sliceTo_eq job.Name (W - 13) (by omega) (by omega)]
    · have h4 : (W - 13).toNat = 0 := by omega
      simp [h, h3, h4]
  · have : job.Name.length ≤ (W - 13).toNat := by omega
    simp [h, List.take_of_length_le this]

/-- No width and no job makes printJob panic: it always writes a line. -/
theorem printJob_total (clk : Clock) (job : Job) (W : Int) :
    ∃ line, printJob clk job W = some line := by
  by_cases h1 : 90 < W
  · exact ⟨_, printJob_wide_eq clk job W h1⟩
  · by_cases h2 : 60 < W
    · exact ⟨_, printJob_medium_eq clk job W h2 (by omega)⟩
    · exact ⟨_, printJob_narrow_eq clk job W (by omega)⟩

/-! ## Lemmas on maps and sorting -/

section Maps

variable {κ α : Type} [DecidableEq κ]

theorem mapGet_mapSet_self (m : List (κ × α)) (k : κ) (v : α) :
    mapGet (mapSet m k v) k = some v := by
  induction m with
  | nil => simp [mapSet, mapGet]
  | cons p m ih =>
    obtain ⟨k1, v1⟩ := p
    by_cases h : k1 = k
    · simp [mapSet, mapGet, h]
    · simp [mapSet, mapGet, h, ih]

theorem mapGet_mapSet_ne (m : List (κ × α)) (k k2 : κ) (v : α) (hne : k ≠ k2) :
    mapGet (mapSet m k v) k2 = mapGet m k2 := by
  induction m with
  | nil => simp [mapSet, mapGet, hne]
  | cons p m ih =>
    obtain ⟨k1, v1⟩ := p
    by_cases h : k1 = k
    · subst h
      simp [mapSet, mapGet, hne]
    · by_cases h2 : k1 = k2
      · subst h2
        simp [mapSet, mapGet, h]
      · simp [mapSet, mapGet, h, h2, ih]

theorem mem_mapKeys_iff (m : List (κ × α)) (k : κ) :
    k ∈ mapKeys m ↔ mapGet m k ≠ none := by
  induction m with
  | nil => simp [mapKeys, mapGet]
  | cons p m ih =>
    obtain ⟨k1, v1⟩ := p
    by_cases h : k1 = k
    · simp [mapKeys, mapGet, h]
    · have h2 : ¬ k = k1 := fun e => h e.symm
      simp only [mapKeys, List.map_cons, List.mem_cons, h2, false_or, mapGet, h, if_false]
      exact ih

theorem mapKeys_mapSet (m : List (κ × α)) (k : κ) (v : α) :
    mapKeys (mapSet m k v)
      = if (mapGet m k).isNone = true then mapKeys m ++ [k] else mapKeys m := by
  induction m with
  | nil => simp [mapSet, mapGet, mapKeys]
  | cons p m ih =>
    obtain ⟨k1, v1⟩ := p
    by_cases h : k1 = k
    · simp [mapSet, mapGet, mapKeys, h]
    · simp only [mapSet, h, if_false, mapGet]
      have e : mapKeys ((k1, v1) :: mapSet m k v) = k1 :: mapKeys (mapSet m k v) := rfl
      rw [e, ih]
      split_ifs <;> rfl

theorem nodup_mapKeys_mapSet (m : List (κ × α)) (k : κ) (v : α) (h : (mapKeys m).Nodup) :
    (mapKeys (mapSet m k v)).Nodup := by
  rw [mapKeys_mapSet]
  split_ifs with hk
  · have hnot : k ∉ mapKeys m := by
      rw [mem_mapKeys_iff]
      simpa using hk
    exact List.Nodup.append h (List.nodup_singleton k) (by simpa using hnot)
  · exact h

end Maps

theorem strLE_refl (a : Str) : strLE a a = true := by
  induction a with
  | nil => rfl
  | cons x a ih => simp [strLE, ih]

theorem strLE_total (a : Str) : ∀ b : Str, strLE a b = true ∨ strLE b a = true := by
  induction a with
  | nil => intro b; left; rfl
  | cons x a ih =>
    intro b
    cases b with
    | nil => right; rfl
    | cons y b =>
      rcases Nat.lt_trichotomy x y with h | h | h
      · left
        simp [strLE, h]
      · subst h
        simpa [strLE] using ih b
      · right
        simp [strLE, h]

theorem strLE_antisymm (a : Str) : ∀ b : Str, strLE a b = true → strLE b a = true → a = b := by
  induction a with
  | nil =>
    intro b h1 h2
    cases b with
    | nil => rfl
    | cons y b => simp [strLE] at h2
  | cons x a ih =>
    intro b h1 h2
    cases b with
    | nil => simp [strLE] at h1
    | cons y b =>
      rcases Nat.lt_trichotomy x y with h | h | h
      · have : ¬ y < x := by omega
        simp [strLE, h, this] at h2
      · subst h
        simp only [strLE, Nat.lt_irrefl, if_false] at h1 h2
        rw [ih b h1 h2]
      · have : ¬ x < y := by omega
        simp [strLE, h, this] at h1

theorem strLE_trans (a : Str) :
    ∀ b c : Str, strLE a b = true → strLE b c = true → strLE a c = true := by
  induction a with
  | nil => intro b c _ _; rfl
  | cons x a ih =>
    intro b c h1 h2
    cases b with
    | nil => simp [strLE] at h1
    | cons y b =>
      cases c with
      | nil => simp [strLE] at h2
      | cons z c =>
        rcases Nat.lt_trichotomy x y with h | h | h
        · rcases Nat.lt_trichotomy y z with g | g | g
          · have : x < z := by omega
            simp [strLE, this]
          · subst g
            simp [strLE, h]
          · have : ¬ y < z := by omega
            simp [strLE, g, this] at h2
        · subst h
          rcases Nat.lt_trichotomy x z with g | g | g
          · simp [strLE, g]
          · subst g
            simp only [strLE, Nat.lt_irrefl, if_false] at h1 h2 ⊢
            exact ih b c h1 h2
          · have : ¬ x < z := by omega
            simp [strLE, g, this] at h2
        · have : ¬ x < y := by omega
          simp [strLE, h, this] at h1

theorem sortInts_sorted (l : List Int) : (sortInts l).Sorted (· ≤ ·) :=
  List.sorted_insertionSort _ l

theorem sortInts_perm (l : List Int) : (sortInts l).Perm l :=
  List.perm_insertionSort _ l

theorem mem_sortInts (l : List Int) (x : Int) : x ∈ sortInts l ↔ x ∈ l :=
  (sortInts_perm l).mem_iff

/-- The result of sort.Ints depends on the elements only, not on their order. -/
theorem sortInts_congr (l1 l2 : List Int) (h : l1.Perm l2) : sortInts l1 = sortInts l2 :=
  List.eq_of_perm_of_sorted (((sortInts_perm l1).trans h).trans (sortInts_perm l2).symm)
    (sortInts_sorted l1) (sortInts_sorted l2)

theorem sortInts_strict (l : List Int) (h : l.Nodup) : (sortInts l).Sorted (· < ·) :=
  (sortInts_sorted l).lt_of_le ((sortInts_perm l).nodup_iff.2 h)

theorem sortStrings_sorted (l : List Str) :
    (sortStrings l).Sorted (fun a b => strLE a b = true) := by
  haveI : IsTotal Str (fun a b => strLE a b = true) := ⟨fun a b => strLE_total a b⟩
  haveI : IsTrans Str (fun a b => strLE a b = true) := ⟨fun a b c => strLE_trans a b c⟩
  exact List.sorted_insertionSort _ l

theorem sortStrings_perm (l : List Str) : (sortStrings l).Perm l :=
  List.perm_insertionSort _ l

theorem mem_sortStrings (l : List Str) (x : Str) : x ∈ sortStrings l ↔ x ∈ l :=
  (sortStrings_perm l).mem_iff

/-- The result of sort.Strings depends on the elements only, not on their order. -/
theorem sortStrings_congr (l1 l2 : List Str) (h : l1.Perm l2) :
    sortStrings l1 = sortStrings l2 := by
  haveI : IsAntisymm Str (fun a b => strLE a b = true) := ⟨fun a b => strLE_antisymm a b⟩
  exact List.eq_of_perm_of_sorted
    (((sortStrings_perm l1).trans h).trans (sortStrings_perm l2).symm)
    (sortStrings_sorted l1) (sortStrings_sorted l2)

theorem sortStrings_strict (l : List Str) (h : l.Nodup) :
    (sortStrings l).Sorted (fun a b => strLE a b = true ∧ a ≠ b) :=
  List.Pairwise.and (sortStrings_sorted l) ((sortStrings_perm l).nodup_iff.2 h)

/-! ## Lemmas on the grouped listing -/

theorem groupAdd_get_self (G : List (Int × List Job)) (j : Job) :
    mapGet (groupAdd G j) j.GroupID = some ((mapGet G j.GroupID).getD [] ++ [j]) := by
  unfold groupAdd
  cases h : mapGet G j.GroupID with
  | none => simp [mapGet_mapSet_self]
  | some v => simp [mapGet_mapSet_self, h]

theorem groupAdd_get_ne (G : List (Int × List Job)) (j : Job) (g : Int) (hg : j.GroupID ≠ g) :
    mapGet (groupAdd G j) g = mapGet G g := by
  unfold groupAdd
  cases h : mapGet G j.GroupID with
  | none => simp [mapGet_mapSet_ne _ _ _ _ hg]
  | some v => simp [mapGet_mapSet_ne _ _ _ _ hg]

theorem groupAdd_nodup (G : List (Int × List Job)) (j : Job) (h : (mapKeys G).Nodup) :
    (mapKeys (groupAdd G j)).Nodup := by
  unfold groupAdd
  cases hG : mapGet G j.GroupID with
  | none => exact nodup_mapKeys_mapSet _ _ _ (nodup_mapKeys_mapSet _ _ _ h)
  | some v => exact nodup_mapKeys_mapSet _ _ _ h

/-- The map built by the first loop: group `g` is bound to the jobs of `g` in sequence
order, and is absent when there is no such job. -/
theorem groupJobs_inv (jobs : List Job) :
    (mapKeys (groupJobs jobs)).Nodup ∧
    ∀ g, mapGet (groupJobs jobs) g
      = if (jobsOf jobs g).isEmpty = true then none else some (jobsOf jobs g) := by
  induction jobs using List.reverseRecOn with
  | nil => exact ⟨by simp [groupJobs, mapKeys], fun g => by simp [groupJobs, mapGet, jobsOf]⟩
  | append_singleton l j ih =>
    obtain ⟨ih1, ih2⟩ := ih
    have e : groupJobs (l ++ [j]) = groupAdd (groupJobs l) j := by
      simp [groupJobs, List.foldl_append]
    rw [e]
    refine ⟨groupAdd_nodup _ _ ih1, ?_⟩
    intro g
    by_cases hg : j.GroupID = g
    · subst hg
      rw [groupAdd_get_self, ih2]
      have : jobsOf (l ++ [j]) j.GroupID = jobsOf l j.GroupID ++ [j] := by
        simp [jobsOf, List.filter_append]
      rw [this]
      cases hl : jobsOf l j.GroupID <;> simp
    · rw [groupAdd_get_ne _ _ _ hg, ih2]
      have : jobsOf (l ++ [j]) g = jobsOf l g := by
        simp [jobsOf, List.filter_append, hg]
      rw [this]

theorem groupJobs_getD (jobs : List Job) (g : Int) :
    (mapGet (groupJobs jobs) g).getD [] = jobsOf jobs g := by
  rw [(groupJobs_inv jobs).2 g]
  cases h : jobsOf jobs g <;> simp

theorem mem_groupKeys (jobs : List Job) (g : Int) :
    g ∈ mapKeys (groupJobs jobs) ↔ ∃ j ∈ jobs, j.GroupID = g := by
  rw [mem_mapKeys_iff, (groupJobs_inv jobs).2 g]
  cases h : jobsOf jobs g with
  | nil =>
    simp only [List.isEmpty_nil, if_true, ne_eq, not_true_eq_false, false_iff]
    rintro ⟨j, hj, hjg⟩
    have : j ∈ jobsOf jobs g := by simp [jobsOf, hj, hjg]
    rw [h] at this
    simp at this
  | cons a l =>
    simp only [List.isEmpty_cons, Bool.false_eq_true, if_false, ne_eq, reduceCtorEq,
      not_false_eq_true, true_iff]
    have : a ∈ jobsOf jobs g := by rw [h]; simp
    simp only [jobsOf, List.mem_filter, decide_eq_true_eq] at this
    exact ⟨a, this.1, this.2⟩

theorem mem_sortedGroupIDs (jobs : List Job) (g : Int) :
    g ∈ sortedGroupIDs (groupJobs jobs) ↔ ∃ j ∈ jobs, j.GroupID = g := by
  unfold sortedGroupIDs
  rw [mem_sortInts, mem_groupKeys]

theorem sortedGroupIDs_strict (jobs : List Job) :
    (sortedGroupIDs (groupJobs jobs)).Sorted (· < ·) :=
  sortInts_strict _ (groupJobs_inv jobs).1

theorem sortedGroupIDs_perm (js1 js2 : List Job) (h : js1.Perm js2) :
    sortedGroupIDs (groupJobs js1) = sortedGroupIDs (groupJobs js2) := by
  unfold sortedGroupIDs
  apply sortInts_congr
  rw [List.perm_ext_iff_of_nodup (groupJobs_inv js1).1 (groupJobs_inv js2).1]
  intro g
  rw [mem_groupKeys, mem_groupKeys]
  constructor
  · rintro ⟨j, hj, hg⟩
    exact ⟨j, h.mem_iff.1 hj, hg⟩
  · rintro ⟨j, hj, hg⟩
    exact ⟨j, h.mem_iff.2 hj, hg⟩

theorem printJob_lineOf (clk : Clock) (W : Int) (job : Job) :
    printJob clk job W = some (lineOf clk W job) := by
  obtain ⟨line, h⟩ := printJob_total clk job W
  simp [lineOf, h]

theorem groupStep_eq (clk : Clock) (tui : TUI) (W : Int) (acc : GroupAcc) (j : Job) :
    groupStep clk tui W acc j = some
      { out := if hideJob tui j = true then acc.out else acc.out ++ lineOf clk W j
        statC :=
          match mapGet acc.statC j.JobState with
          | some c => mapSet acc.statC j.JobState (c + 1)
          | none => mapSet acc.statC j.JobState 1
        hidden := if hideJob tui j = true then acc.hidden + 1 else acc.hidden } := by
  unfold groupStep
  cases h : hideJob tui j <;> simp [printJob_lineOf]

theorem groupInv_step (clk : Clock) (tui : TUI) (W : Int) (header : Str) (pre : List Job)
    (acc : GroupAcc) (j : Job) (h : GroupInv clk tui W header pre acc) :
    ∃ acc2, groupStep clk tui W acc j = some acc2 ∧
      GroupInv clk tui W header (pre ++ [j]) acc2 := by
  obtain ⟨h1, h2, h3, h4⟩ := h
  refine ⟨_, groupStep_eq clk tui W acc j, ?_, ?_, ?_, ?_⟩
  · cases hj : hideJob tui j <;> simp [h1, hj, List.filter_append]
  · cases hj : hideJob tui j <;> simp [h2, hj, List.countP_append]
  · show (mapKeys (match mapGet acc.statC j.JobState with
        | some c => mapSet acc.statC j.JobState (c + 1)
        | none => mapSet acc.statC j.JobState 1)).Nodup
    cases mapGet acc.statC j.JobState <;> exact nodup_mapKeys_mapSet _ _ _ h3
  · intro s
    show mapGet (match mapGet acc.statC j.JobState with
        | some c => mapSet acc.statC j.JobState (c + 1)
        | none => mapSet acc.statC j.JobState 1) s = _
    by_cases hs : j.JobState = s
    · subst hs
      have hc : List.countP (fun x => decide (x.JobState = j.JobState)) (pre ++ [j])
          = List.countP (fun x => decide (x.JobState = j.JobState)) pre + 1 := by
        simp [List.countP_append]
      rw [hc, h4 j.JobState]
      by_cases h0 : List.countP (fun x => decide (x.JobState = j.JobState)) pre = 0
      · simp [h0, mapGet_mapSet_self]
      · simp [h0, mapGet_mapSet_self]
    · have hc : List.countP (fun x => decide (x.JobState = s)) (pre ++ [j])
          = List.countP (fun x => decide (x.JobState = s)) pre := by
        simp [List.countP_append, hs]
      rw [hc, ← h4 s]
      cases mapGet acc.statC j.JobState <;> exact mapGet_mapSet_ne _ _ _ _ hs

theorem groupInv_fold (clk : Clock) (tui : TUI) (W : Int) (header : Str) (js : List Job) :
    ∀ (pre : List Job) (acc : GroupAcc), GroupInv clk tui W header pre acc →
      ∃ acc2, js.foldlM (groupStep clk tui W) acc = some acc2 ∧
        GroupInv clk tui W header (pre ++ js) acc2 := by
  induction js with
  | nil =>
    intro pre acc h
    exact ⟨acc, by simp, by simpa using h⟩
  | cons j js ih =>
    intro pre acc h
    obtain ⟨acc1, e1, h1⟩ := groupInv_step clk tui W header pre acc j h
    obtain ⟨acc2, e2, h2⟩ := ih (pre ++ [j]) acc1 h1
    refine ⟨acc2, ?_, ?_⟩
    · simp [e1, e2]
    · simpa using h2

/-- The loop over the jobs of one group ends, and ends in a state that meets the
invariant for all jobs of the group. -/
theorem groupLoop_inv (clk : Clock) (tui : TUI) (W : Int) (header : Str) (js : List Job) :
    ∃ acc, groupLoop clk tui W header js = some acc ∧ GroupInv clk tui W header js acc := by
  have h0 : GroupInv clk tui W header [] { out := header, statC := [], hidden := 0 } := by
    refine ⟨by simp, by simp, by simp [mapKeys], ?_⟩
    intro s
    simp [mapGet]
  obtain ⟨acc, e, h⟩ := groupInv_fold clk tui W header js [] _ h0
  exact ⟨acc, e, by simpa using h⟩

theorem countP_state_eq_zero_iff (js : List Job) (s : Str) :
    js.countP (fun j => j.JobState = s) = 0 ↔ ¬ ∃ j ∈ js, j.JobState = s := by
  rw [List.countP_eq_zero]
  simp

theorem mem_statKeys (clk : Clock) (tui : TUI) (W : Int) (header : Str) (js : List Job)
    (acc : GroupAcc) (h : GroupInv clk tui W header js acc) (s : Str) :
    s ∈ mapKeys acc.statC ↔ ∃ j ∈ js, j.JobState = s := by
  rw [mem_mapKeys_iff, h.2.2.2 s]
  by_cases h0 : js.countP (fun j => j.JobState = s) = 0
  · simp only [h0, if_true, ne_eq, not_true_eq_false, false_iff]
    exact (countP_state_eq_zero_iff js s).1 h0
  · simp only [h0, if_false, ne_eq, reduceCtorEq, not_false_eq_true, true_iff]
    by_contra hc
    exact h0 ((countP_state_eq_zero_iff js s).2 hc)

theorem mem_specStates (js : List Job) (s : Str) :
    s ∈ specStates js ↔ ∃ j ∈ js, j.JobState = s := by
  unfold specStates
  rw [mem_sortStrings, List.mem_dedup, List.mem_map]

theorem specStates_strict (js : List Job) :
    (specStates js).Sorted (fun a b => strLE a b = true ∧ a ≠ b) :=
  sortStrings_strict _ (List.nodup_dedup _)

theorem specStates_perm (js1 js2 : List Job) (h : js1.Perm js2) :
    specStates js1 = specStates js2 := by
  unfold specStates
  exact sortStrings_congr _ _ ((h.map _).dedup)

theorem sortedKeys_eq_specStates (clk : Clock) (tui : TUI) (W : Int) (header : Str)
    (js : List Job) (acc : GroupAcc) (h : GroupInv clk tui W header js acc) :
    sortedKeys acc.statC = specStates js := by
  unfold sortedKeys specStates
  apply sortStrings_congr
  rw [List.perm_ext_iff_of_nodup h.2.2.1 (List.nodup_dedup _)]
  intro s
  rw [mem_statKeys clk tui W header js acc h s, List.mem_dedup, List.mem_map]

theorem statBreakdown_eq (clk : Clock) (tui : TUI) (W : Int) (header : Str)
    (js : List Job) (acc : GroupAcc) (h : GroupInv clk tui W header js acc) :
    statBreakdown acc.statC
      = (specStates js).map
          (fun s => (s, ((js.countP (fun j => j.JobState = s) : Nat) : Int))) := by
  unfold statBreakdown
  rw [sortedKeys_eq_specStates clk tui W header js acc h]
  apply List.map_congr_left
  intro s _
  rw [h.2.2.2 s]
  by_cases h0 : js.countP (fun j => j.JobState = s) = 0 <;> simp [h0]

theorem foldl_append_flatten {β : Type} (f : β → Str) (l : List β) :
    ∀ init : Str, l.foldl (fun out x => out ++ f x) init = init ++ (l.map f).flatten := by
  induction l with
  | nil => intro init; simp
  | cons x l ih => intro init; simp [ih]

/-- The footer written after the loop is the footer of the specification. -/
theorem groupFooter_eq (clk : Clock) (tui : TUI) (W : Int) (header : Str)
    (js : List Job) (acc : GroupAcc) (h : GroupInv clk tui W header js acc) :
    groupFooter js.length acc.statC acc.hidden = specFooter tui js := by
  unfold groupFooter specFooter
  rw [statBreakdown_eq clk tui W header js acc h, h.2.1]
  simp only [foldl_append_flatten (fun sc : Str × Int =>
    lit ", " ++ sc.1 ++ lit ": " ++ fmtInt sc.2), List.map_map]
  by_cases h0 : 0 < js.countP (fun j => hideJob tui j)
  · have h1 : ((js.countP (fun j => hideJob tui j) : Nat) : Int) > 0 := by omega
    simp only [h0, h1, if_true]
    rfl
  · have h1 : ¬ ((js.countP (fun j => hideJob tui j) : Nat) : Int) > 0 := by omega
    simp only [h0, h1, if_false, List.append_nil]
    rfl

/-- Everything written for one group. -/
theorem printGroup_eq (clk : Clock) (tui : TUI) (W : Int) (jobs : List Job) (g : Int) :
    printGroup clk tui W (groupJobs jobs) g = some (groupHeader tui g
      ++ (((jobsOf jobs g).filter (fun j => !hideJob tui j)).map (lineOf clk W)).flatten
      ++ specFooter tui (jobsOf jobs g)) := by
  unfold printGroup
  rw [groupJobs_getD]
  obtain ⟨acc, e, h⟩ := groupLoop_inv clk tui W (groupHeader tui g) (jobsOf jobs g)
  simp [e, groupFooter_eq clk tui W _ _ acc h, h.1]

theorem foldlM_blocks {β : Type} (f : β → Option Str) (b : β → Str)
    (hf : ∀ x, f x = some (b x)) (l : List β) :
    ∀ acc : Str,
      l.foldlM (fun out x => do
        let s ← f x
        pure (out ++ s)) acc = some (acc ++ (l.map b).flatten) := by
  induction l with
  | nil => intro acc; simp
  | cons x l ih =>
    intro acc
    simpa [hf] using ih (acc ++ b x)

/-- Everything written by printJobsByGroup: for each group, in ascending order of the
group IDs, the header, the lines of the visible jobs and the footer. -/
theorem printJobsByGroup_eq (clk : Clock) (tui : TUI) (W : Int) :
    printJobsByGroup clk tui W = some (((sortedGroupIDs (groupJobs tui.Model.jobs)).map
      (fun g => groupHeader tui g
        ++ (((jobsOf tui.Model.jobs g).filter (fun j => !hideJob tui j)).map
              (lineOf clk W)).flatten
        ++ specFooter tui (jobsOf tui.Model.jobs g))).flatten) := by
  unfold printJobsByGroup
  have := foldlM_blocks (fun g => printGroup clk tui W (groupJobs tui.Model.jobs) g) _
    (fun g => printGroup_eq clk tui W tui.Model.jobs g)
    (sortedGroupIDs (groupJobs tui.Model.jobs)) []
  simpa using this

/-- The footer of a group depends on the jobs of the group only, not on their order. -/
theorem specFooter_perm (tui : TUI) (js1 js2 : List Job) (hp : js1.Perm js2) :
    specFooter tui js1 = specFooter tui js2 := by
  unfold specFooter
  have hc : ∀ s : Str, js1.countP (fun j => j.JobState = s)
      = js2.countP (fun j => j.JobState = s) := fun s => hp.countP_eq _
  have hh : js1.countP (fun j => hideJob tui j) = js2.countP (fun j => hideJob tui j) :=
    hp.countP_eq _
  simp only [hp.length_eq, specStates_perm _ _ hp, hc, hh]

/-! ## Lemmas on the frame -/

/-- Everything written by printJobs: the lines of the visible jobs in sequence order. -/
theorem printJobs_eq (clk : Clock) (tui : TUI) (W : Int) :
    printJobs clk tui W
      = some (((tui.Model.jobs.filter (fun j => !hideJob tui j)).map (lineOf clk W)).flatten) := by
  have key : ∀ (jobs : List Job) (acc : Str),
      jobs.foldlM
        (fun out job =>
          if !hideJob tui job then do
            let line ← printJob clk job W
            pure (out ++ line)
          else pure out)
        acc
      = some (acc ++ ((jobs.filter (fun j => !hideJob tui j)).map (lineOf clk W)).flatten) := by
    intro jobs
    induction jobs with
    | nil => intro acc; simp
    | cons j jobs ih =>
      intro acc
      cases hj : hideJob tui j
      · simpa [hj, printJob_lineOf] using ih (acc ++ lineOf clk W j)
      · simpa [hj] using ih acc
  simpa [printJobs] using key tui.Model.jobs []

/-- The listing that Update dispatches to. -/
theorem listing_eq (clk : Clock) (tui : TUI) (W : Int) :
    (if tui.sorting = 1 then printJobsByGroup clk tui W else printJobs clk tui W)
      = some (jobListing clk tui W) := by
  unfold jobListing
  split_ifs
  · exact printJobsByGroup_eq clk tui W
  · exact printJobs_eq clk tui W

/-- The frame written by Update for a width and a height that are not negative. -/
theorem UpdateAt_eq (clk : Clock) (tui : TUI) (W H : Int) (hW : 0 ≤ W) (hH : 0 ≤ H) :
    TUI.UpdateAt clk tui W H = some (tui, TUI.Clear ++ frameHead tui ++ jobListing clk tui W
      ++ frameStatus tui ++ frameTracker tui W) := by
  have hguard : ¬ (W < 0 ∨ H < 0) := by omega
  have hg := printJobsByGroup_eq clk tui W
  have hu := printJobs_eq clk tui W
  have hbody := listing_eq clk tui W
  unfold TUI.UpdateAt
  rw [if_neg hguard]
  unfold frameHead frameStatus frameTracker trackerLine spaces
  by_cases hsort : tui.sorting = 1
  · rw [if_pos hsort] at hbody
    rw [hg] at hbody
    injection hbody with hbody
    rw [← hbody]
    by_cases hl : (tui.tracker.length : Int) ≤ W
    · by_cases hh : tui.header = []
        <;> by_cases hs : (tui.showStatus = true ∧ tui.status ≠ [])
        <;> by_cases ht : (tui.showTracker = true ∧ tui.tracker ≠ [])
        <;> simp [hh, hs, ht, hl, hsort, hg]
    · have hcut : sliceTo tui.tracker W = some (tui.tracker.take W.toNat) :=
        sliceTo_eq tui.tracker W hW (by omega)
      by_cases hh : tui.header = []
        <;> by_cases hs : (tui.showStatus = true ∧ tui.status ≠ [])
        <;> by_cases ht : (tui.showTracker = true ∧ tui.tracker ≠ [])
        <;> simp [hh, hs, ht, hl, hcut, hsort, hg]
  · rw [if_neg hsort] at hbody
    rw [hu] at hbody
    injection hbody with hbody
    rw [← hbody]
    by_cases hl : (tui.tracker.length : Int) ≤ W
    · by_cases hh : tui.header = []
        <;> by_cases hs : (tui.showStatus = true ∧ tui.status ≠ [])
        <;> by_cases ht : (tui.showTracker = true ∧ tui.tracker ≠ [])
        <;> simp [hh, hs, ht, hl, hsort, hu]
    · have hcut : sliceTo tui.tracker W = some (tui.tracker.take W.toNat) :=
        sliceTo_eq tui.tracker W hW (by omega)
      by_cases hh : tui.header = []
        <;> by_cases hs : (tui.showStatus = true ∧ tui.status ≠ [])
        <;> by_cases ht : (tui.showTracker = true ∧ tui.tracker ≠ [])
        <;> simp [hh, hs, ht, hl, hcut, hsort, hu]

/-- The clock enters a line only through the date colour and the time text. -/
theorem lineOf_congr (clk1 clk2 : Clock) (W : Int) (j : Job) (hP : clk1.Parse = clk2.Parse)
    (hF : clk1.Format = clk2.Format) (hc : jobDateColor clk1 j = jobDateColor clk2 j) :
    lineOf clk1 W j = lineOf clk2 W j := by
  have ht : jobTimeText clk1 j = jobTimeText clk2 j := by
    simp [jobTimeText, jobTimestamp, hP, hF]
  simp [lineOf, printJob, ht, hc]

theorem jobListing_congr (clk1 clk2 : Clock) (tui : TUI) (W : Int)
    (hP : clk1.Parse = clk2.Parse) (hF : clk1.Format = clk2.Format)
    (hC : ∀ j ∈ tui.Model.jobs, hideJob tui j = false →
      jobDateColor clk1 j = jobDateColor clk2 j) :
    jobListing clk1 tui W = jobListing clk2 tui W := by
  have hline : ∀ j ∈ tui.Model.jobs, hideJob tui j = false →
      lineOf clk1 W j = lineOf clk2 W j :=
    fun j hj hh => lineOf_congr clk1 clk2 W j hP hF (hC j hj hh)
  have hu : (tui.Model.jobs.filter (fun j => !hideJob tui j)).map (lineOf clk1 W)
      = (tui.Model.jobs.filter (fun j => !hideJob tui j)).map (lineOf clk2 W) := by
    apply List.map_congr_left
    intro j hj
    simp only [List.mem_filter, Bool.not_eq_true'] at hj
    exact hline j hj.1 hj.2
  have hg : ∀ g, ((jobsOf tui.Model.jobs g).filter (fun j => !hideJob tui j)).map (lineOf clk1 W)
      = ((jobsOf tui.Model.jobs g).filter (fun j => !hideJob tui j)).map (lineOf clk2 W) := by
    intro g
    apply List.map_congr_left
    intro j hj
    simp only [List.mem_filter, jobsOf, decide_eq_true_eq, Bool.not_eq_true'] at hj
    exact hline j hj.1.1 hj.2
  unfold jobListing
  rw [hu]
  simp only [hg]

theorem terminalSize_nonneg (ret : Int) (ws : winsize) :
    0 ≤ (terminalSize ret ws).1 ∧ 0 ≤ (terminalSize ret ws).2 := by
  unfold terminalSize
  split_ifs
  · exact ⟨Int.ofNat_nonneg _, Int.ofNat_nonneg _⟩
  · exact ⟨by decide, by decide⟩

/-- The frame written by Update, whatever the terminal query answers. -/
theorem Update_eq (clk : Clock) (tui : TUI) (ret : Int) (ws : winsize) :
    TUI.Update clk tui ret ws = some (tui, TUI.Clear ++ frameHead tui
      ++ jobListing clk tui (terminalSize ret ws).1
      ++ frameStatus tui ++ frameTracker tui (terminalSize ret ws).1) := by
  unfold TUI.Update
  exact UpdateAt_eq clk tui _ _ (terminalSize_nonneg ret ws).1 (terminalSize_nonneg ret ws).2

/-! ## Lemmas on the width of a line -/

theorem runeCount_cons_ascii (c : Nat) (b : Str) (hc : c < 128) :
    RuneCountInString (c :: b) = 1 + RuneCountInString b := by
  have := runeCount_append_ascii [] c b hc
  simpa [runeCount_nil, Nat.add_comm] using this

/-- Rune counts add up where the second text is empty or starts with an ASCII byte. -/
theorem runeCount_append_head (a b : Str) (h : ∀ c ∈ b.head?, c < 128) :
    RuneCountInString (a ++ b) = RuneCountInString a + RuneCountInString b := by
  cases b with
  | nil => simp [runeCount_nil]
  | cons c rest =>
    have hc : c < 128 := h c (by simp)
    rw [runeCount_append_ascii a c rest hc, runeCount_cons_ascii c rest hc]
    omega

/-- Rune counts add up after an ASCII text. -/
theorem runeCount_ascii_append (a b : Str) (h : ∀ x ∈ a, x < 128) :
    RuneCountInString (a ++ b) = a.length + RuneCountInString b := by
  induction a with
  | nil => simp
  | cons x a ih =>
    have hx : x < 128 := h x (by simp)
    rw [List.cons_append, runeCount_cons_ascii x _ hx, ih (fun y hy => h y (by simp [hy])),
      List.length_cons]
    omega

theorem runeCount_padLeft (w : Nat) (s : Str) (h : RuneCountInString s ≤ w) :
    RuneCountInString (padLeft w s) = w := by
  rw [padLeft, runeCount_blanks_append]
  omega

theorem runeCount_padRight (w : Nat) (s : Str) (h : RuneCountInString s ≤ w) :
    RuneCountInString (padRight w s) = w := by
  rw [padRight, runeCount_append_head, runeCount_blanks]
  · omega
  · intro c hc
    cases hk : w - RuneCountInString s with
    | zero => simp [hk] at hc
    | succ k =>
      rw [hk, List.replicate_succ] at hc
      simp at hc
      omega

theorem digitsFrom_length : ∀ (fuel k n : Nat) (acc : Str), 1 ≤ k → n < 10 ^ k →
    (digitsFrom fuel n acc).length ≤ acc.length + k := by
  intro fuel
  induction fuel with
  | zero =>
    intro k n acc _ _
    simp [digitsFrom]
  | succ fuel ih =>
    intro k n acc hk hn
    unfold digitsFrom
    split_ifs with h10
    · simp only [List.length_cons]
      omega
    · have hk2 : 2 ≤ k := by
        by_contra hlt
        have : k = 1 := by omega
        subst this
        omega
      have hdiv : n / 10 < 10 ^ (k - 1) := by
        have e : 10 ^ k = 10 ^ (k - 1) * 10 := by
          rw [← pow_succ]
          congr 1
          omega
        rw [e] at hn
        exact Nat.div_lt_of_lt_mul (by rw [Nat.mul_comm]; exact hn)
      have := ih (k - 1) (n / 10) ((48 + n % 10) :: acc) (by omega) hdiv
      simp only [List.length_cons] at this
      omega

/-- An ID from 0 to 99999999 has at most 8 digits. -/
theorem fmtInt_length (i : Int) (h0 : 0 ≤ i) (h1 : i ≤ 99999999) : (fmtInt i).length ≤ 8 := by
  unfold fmtInt
  match i, h0, h1 with
  | Int.ofNat n, _, h1 =>
    have hn : n < 10 ^ 8 := by
      have : (n : Int) ≤ 99999999 := h1
      omega
    have := digitsFrom_length (n + 1) 8 n [] (by omega) hn
    simpa using this
  | Int.negSucc n, h0, _ => exact absurd h0 (by simp [Int.negSucc_lt_zero])

/-! ## The state-to-colour table -/

/-- C1: getStateColorcode follows the state-to-colour table exactly -/
theorem getStateColorcode_table (s : Str) :
    (getStateColorcode s = ANSI_BLUE ↔ s = lit "scheduled" ∨ s = lit "assigned") ∧
    (getStateColorcode s = ANSI_GREEN ↔ s = lit "done" ∨ s = lit "passed") ∧
    (getStateColorcode s = ANSI_YELLOW ↔ s = lit "softfail" ∨ s = lit "softfailed") ∧
    (getStateColorcode s = ANSI_RED ↔ s = lit "fail" ∨ s = lit "failed") ∧
    (getStateColorcode s = ANSI_MAGENTA ↔ s = lit "cancelled" ∨ s = lit "user_cancelled") ∧
    (getStateColorcode s = ANSI_CYAN ↔ s = lit "running") ∧
    (getStateColorcode s = ANSI_WHITE ↔
      ¬ (s = lit "scheduled" ∨ s = lit "assigned" ∨ s = lit "done" ∨ s = lit "passed" ∨
         s = lit "softfail" ∨ s = lit "softfailed" ∨ s = lit "fail" ∨ s = lit "failed" ∨
         s = lit "cancelled" ∨ s = lit "user_cancelled" ∨ s = lit "running")) ∧
    getStateColorcode (lit "Passed") = ANSI_WHITE ∧
    getStateColorcode (lit "RUNNING") = ANSI_WHITE := by
  refine ⟨?_, ?_, ?_, ?_, ?_, ?_, ?_, by decide, by decide⟩ <;>
  · unfold getStateColorcode
    split_ifs with h1 h2 h3 h4 h5 h6
    · rcases h1 with h | h <;> subst h <;> decide
    · rcases h2 with h | h <;> subst h <;> decide
    · rcases h3 with h | h <;> subst h <;> decide
    · rcases h4 with h | h <;> subst h <;> decide
    · rcases h5 with h | h <;> subst h <;> decide
    · subst h6; decide
    · have e1 : ANSI_WHITE ≠ ANSI_BLUE := by decide
      have e2 : ANSI_WHITE ≠ ANSI_GREEN := by decide
      have e3 : ANSI_WHITE ≠ ANSI_YELLOW := by decide
      have e4 : ANSI_WHITE ≠ ANSI_RED := by decide
      have e5 : ANSI_WHITE ≠ ANSI_MAGENTA := by decide
      have e6 : ANSI_WHITE ≠ ANSI_CYAN := by decide
      push_neg at h1 h2 h3 h4 h5
      simp [e1, e2, e3, e4, e5, e6, h1, h2, h3, h4, h5, h6]

/-! ## Hide filter -/

theorem hideLoop_iff (state : Str) (l : List Str) :
    hideLoop state l = true ↔ ∃ s ∈ l, state = s := by
  induction l with
  | nil => simp [hideLoop]
  | cons s rest ih =>
    unfold hideLoop
    split_ifs with h
    · simp [h]
    · simp [ih, h]

/-- C2: hideJob returns true exactly when hiding is enabled and the state of the job is
equal to an element of the hide-status list. -/
theorem hideJob_iff (tui : TUI) (job : Job) :
    hideJob tui job = true ↔ (tui.hide = true ∧ ∃ s ∈ tui.hideStatus, job.JobState = s) := by
  unfold hideJob
  cases h : tui.hide <;> simp [hideLoop_iff]

/-! ## Truncation of the name and width of the line -/

/-- C3: on a terminal wider than 90 columns printJob writes the full line, and the name
in it is the first `W - 89` bytes of the name of the job: exactly `W - 89` bytes when the
name is longer than that, the whole name otherwise. -/
theorem printJob_wide_name (clk : Clock) (job : Job) (W : Int) (hW : 90 < W) :
    printJob clk job W = some (jobDateColor clk job ++ padLeft 20 (jobTimeText clk job)
      ++ ANSI_RESET ++ lit "    " ++ padLeft 8 (fmtInt job.ID) ++ lit " "
      ++ getStateColorcode job.JobState ++ padRight 12 job.JobState
      ++ (ANSI_RESET ++ ANSI_WHITE) ++ lit " " ++ padLeft 40 job.Link ++ lit " | "
      ++ job.Name.take (W - 89).toNat ++ lit "\n") ∧
    (W - 89 < (job.Name.length : Int) →
      ((job.Name.take (W - 89).toNat).length : Int) = W - 89) ∧
    ((job.Name.length : Int) ≤ W - 89 → job.Name.take (W - 89).toNat = job.Name) := by
  refine ⟨printJob_wide_eq clk job W hW, ?_, ?_⟩
  · intro h
    rw [List.length_take]
    omega
  · intro h
    exact List.take_of_length_le (by omega)

set_option maxRecDepth 100000 in
/-- Witness of C3 at width 100: the 59-byte name is cut to its first 11 bytes. -/
theorem printJob_wide_name_witness :
    (90 : Int) < 100 ∧
    printJob exampleClock exampleJob 100 = some (lit
      "\x1b[33;1m 2021-01-01-00:00:00\x1b[0m        4711 \x1b[32mpassed      \x1b[0m\x1b[37m                 http://openqa/tests/4711 | opensuse-Tu\n") :=
  ⟨by decide, (printJob_wide_name exampleClock exampleJob 100 (by decide)).1.trans (by decide)⟩


/-- C4, as stated, fails: at width 5 the line of a running job shows 13 characters, and at
width 14 the line of a job in state `user_cancelled` shows 15. -/
theorem printJob_narrow_exceeds_width :
    (printJob exampleClock (bareJob 1 (lit "running") 0) 5
        = some (ANSI_CYAN ++ lit "running     " ++ ANSI_RESET ++ lit " " ++ lit "\n") ∧
      RuneCountInString (lit "running     " ++ lit " ") = 13 ∧ ¬ ((13 : Int) ≤ 5)) ∧
    (printJob exampleClock (bareJob 1 (lit "user_cancelled") 0) 14
        = some (ANSI_MAGENTA ++ lit "user_cancelled" ++ ANSI_RESET ++ lit " " ++ lit "\n") ∧
      RuneCountInString (lit "user_cancelled" ++ lit " ") = 15 ∧ ¬ ((15 : Int) ≤ 14)) := by
  decide

/-- C4, amended: on a terminal of 13 to 60 columns, for a job whose state has at most 12
characters, printJob writes the colour code of the state, the state padded to 12 columns,
the reset code, a blank, the first `W - 13` bytes of the name and a newline; the text
without the two codes and the newline has at most `W` characters. -/
theorem printJob_narrow_fits (clk : Clock) (job : Job) (W : Int) (h13 : 13 ≤ W) (h60 : W ≤ 60)
    (hs : RuneCountInString job.JobState ≤ 12) :
    printJob clk job W = some (getStateColorcode job.JobState ++ padRight 12 job.JobState
      ++ ANSI_RESET ++ (lit " " ++ job.Name.take (W - 13).toNat) ++ lit "\n") ∧
    (RuneCountInString (padRight 12 job.JobState ++ (lit " " ++ job.Name.take (W - 13).toNat))
      : Int) ≤ W := by
  refine ⟨printJob_narrow_eq clk job W h60, ?_⟩
  have e : lit " " = [32] := by decide
  have hlen := runeCount_le_length (job.Name.take (W - 13).toNat)
  have hlen2 : (job.Name.take (W - 13).toNat).length ≤ (W - 13).toNat := by
    rw [List.length_take]
    exact Nat.min_le_left _ _
  rw [padRight, e, List.append_assoc, List.singleton_append, runeCount_append_blanks]
  omega

/-- Witness of C4 (amended) at width 40. -/
theorem printJob_narrow_fits_witness :
    (13 : Int) ≤ 40 ∧ (40 : Int) ≤ 60 ∧ RuneCountInString exampleJob.JobState ≤ 12 ∧
    printJob exampleClock exampleJob 40
      = some (lit "\x1b[32mpassed      \x1b[0m opensuse-Tumbleweed-DVD-x86\n") :=
  ⟨by decide, by decide, by decide,
    (printJob_narrow_fits exampleClock exampleJob 40 (by decide) (by decide) (by decide)).1.trans
      (by decide)⟩


/-- C5: on a terminal of 61 to 90 columns printJob writes no timestamp: the line is the
link right-aligned to 40 columns (the ID left-aligned in 40 columns when the link is
empty), a blank, the coloured state padded to 12 columns, a bar, and the name, whole when
`58 + len(name) ≤ W` and cut to its first `W - 58` bytes otherwise; clock and timestamps
of the job have no influence. -/
theorem printJob_medium (clk : Clock) (job : Job) (W : Int) (h60 : 60 < W) (h90 : W ≤ 90) :
    printJob clk job W = some (
      (if job.Link = [] then padRight 40 (fmtInt job.ID) else padLeft 40 job.Link)
      ++ lit " " ++ getStateColorcode job.JobState ++ padRight 12 job.JobState
      ++ (ANSI_RESET ++ ANSI_WHITE) ++ lit " | "
      ++ (if 58 + (job.Name.length : Int) ≤ W then job.Name
          else job.Name.take (W - 58).toNat)
      ++ lit "\n") ∧
    ∀ (clk2 : Clock) (t1 t2 : Str),
      printJob clk2 { job with Tstarted := t1, Tfinished := t2 } W = printJob clk job W := by
  refine ⟨printJob_medium_eq clk job W h60 h90, ?_⟩
  intro clk2 t1 t2
  rw [printJob_medium_eq clk job W h60 h90, printJob_medium_eq clk2 _ W h60 h90]

/-- Witness of C5 at width 80, for a job with a link. -/
theorem printJob_medium_witness :
    (60 : Int) < 80 ∧ (80 : Int) ≤ 90 ∧
    printJob exampleClock exampleJob 80 = some (lit
      "                http://openqa/tests/4711 \x1b[32mpassed      \x1b[0m\x1b[37m | opensuse-Tumbleweed-DV\n") :=
  ⟨by decide, by decide,
    (printJob_medium exampleClock exampleJob 80 (by decide) (by decide)).1.trans (by decide)⟩

/-! ## Grouped listing -/

set_option maxRecDepth 100000 in
/-- C6: the grouped listing does not depend on the order of the job sequence. For a
permutation `js2` of the jobs, printJobsByGroup writes the groups in the same order, the
distinct group IDs in strictly ascending order, each with the same header and the same
footer (total, status breakdown, hidden tally); only the lines of the jobs inside a group
follow the order of the sequence. For every group both loops end with the same total, the
same status breakdown and the same hidden tally. The scenario with its jobs in reverse
order is evaluated at width 50. -/
theorem printJobsByGroup_perm (clk : Clock) (tui : TUI) (W : Int) (js2 : List Job)
    (h : tui.Model.jobs.Perm js2) :
    printJobsByGroup clk tui W = some (((sortedGroupIDs (groupJobs tui.Model.jobs)).map
      (fun g => groupHeader tui g
        ++ (((jobsOf tui.Model.jobs g).filter (fun j => !hideJob tui j)).map
              (lineOf clk W)).flatten
        ++ specFooter tui (jobsOf tui.Model.jobs g))).flatten) ∧
    printJobsByGroup clk { tui with Model := tui.Model.Apply js2 } W
      = some (((sortedGroupIDs (groupJobs tui.Model.jobs)).map
      (fun g => groupHeader tui g
        ++ (((jobsOf js2 g).filter (fun j => !hideJob tui j)).map (lineOf clk W)).flatten
        ++ specFooter tui (jobsOf tui.Model.jobs g))).flatten) ∧
    (∀ g, (((jobsOf js2 g).filter (fun j => !hideJob tui j)).map (lineOf clk W)).Perm
      (((jobsOf tui.Model.jobs g).filter (fun j => !hideJob tui j)).map (lineOf clk W))) ∧
    sortedGroupIDs (groupJobs tui.Model.jobs) = sortedGroupIDs (groupJobs js2) ∧
    (sortedGroupIDs (groupJobs tui.Model.jobs)).Sorted (· < ·) ∧
    (∀ g, g ∈ sortedGroupIDs (groupJobs tui.Model.jobs) ↔ ∃ j ∈ tui.Model.jobs, j.GroupID = g) ∧
    (∀ g, ∃ acc1 acc2,
      groupLoop clk tui W (groupHeader tui g) ((mapGet (groupJobs tui.Model.jobs) g).getD [])
        = some acc1 ∧
      groupLoop clk { tui with Model := tui.Model.Apply js2 } W
          (groupHeader { tui with Model := tui.Model.Apply js2 } g)
          ((mapGet (groupJobs js2) g).getD [])
        = some acc2 ∧
      ((mapGet (groupJobs tui.Model.jobs) g).getD []).length
        = ((mapGet (groupJobs js2) g).getD []).length ∧
      statBreakdown acc1.statC = statBreakdown acc2.statC ∧
      acc1.hidden = acc2.hidden ∧
      groupFooter ((mapGet (groupJobs tui.Model.jobs) g).getD []).length acc1.statC acc1.hidden
        = groupFooter ((mapGet (groupJobs js2) g).getD []).length acc2.statC acc2.hidden) ∧
    printJobsByGroup exampleClock
      { groupScenario with
        Model := (groupScenario.Model.Apply
          ([bareJob 3 (lit "running") 3, bareJob 2 (lit "passed") 5,
            bareJob 1 (lit "failed") 5])) }
      50
      = some (lit
        "=====  ====================\n\x1b[36mrunning     \x1b[0m \nTotal: 1, running: 1\n=====  ====================\n\x1b[32mpassed      \x1b[0m \n\x1b[31mfailed      \x1b[0m \nTotal: 2, failed: 1, passed: 1\n") := by
  have hjobs : ∀ g, (jobsOf tui.Model.jobs g).Perm (jobsOf js2 g) := fun g => h.filter _
  refine ⟨printJobsByGroup_eq clk tui W, ?_, ?_, sortedGroupIDs_perm _ _ h,
    sortedGroupIDs_strict _, mem_sortedGroupIDs _, ?_, by decide⟩
  · have e := printJobsByGroup_eq clk { tui with Model := tui.Model.Apply js2 } W
    have e2 : printJobsByGroup clk { tui with Model := tui.Model.Apply js2 } W
        = some (((sortedGroupIDs (groupJobs js2)).map
          (fun g => groupHeader tui g
            ++ (((jobsOf js2 g).filter (fun j => !hideJob tui j)).map (lineOf clk W)).flatten
            ++ specFooter tui (jobsOf js2 g))).flatten) := e
    rw [e2, ← sortedGroupIDs_perm _ _ h]
    have e3 : ∀ g, specFooter tui (jobsOf js2 g) = specFooter tui (jobsOf tui.Model.jobs g) :=
      fun g => (specFooter_perm tui _ _ (hjobs g)).symm
    simp only [e3]
  · intro g
    exact (((hjobs g).symm.filter _).map _)
  intro g
  rw [groupJobs_getD, groupJobs_getD]
  have hp : (jobsOf tui.Model.jobs g).Perm (jobsOf js2 g) := hjobs g
  obtain ⟨acc1, e1, i1⟩ := groupLoop_inv clk tui W (groupHeader tui g) (jobsOf tui.Model.jobs g)
  obtain ⟨acc2, e2, i2⟩ := groupLoop_inv clk { tui with Model := tui.Model.Apply js2 } W
    (groupHeader tui g) (jobsOf js2 g)
  have hb : statBreakdown acc1.statC = statBreakdown acc2.statC := by
    rw [statBreakdown_eq _ _ _ _ _ _ i1, statBreakdown_eq _ _ _ _ _ _ i2,
      specStates_perm _ _ hp]
    apply List.map_congr_left
    intro s _
    rw [hp.countP_eq]
  have hh : acc1.hidden = acc2.hidden := by
    rw [i1.2.1, i2.2.1]
    have : ∀ j, hideJob { tui with Model := tui.Model.Apply js2 } j = hideJob tui j :=
      fun j => rfl
    simp only [this, hp.countP_eq]
  refine ⟨acc1, acc2, e1, e2, hp.length_eq, hb, hh, ?_⟩
  unfold groupFooter
  rw [hb, hh, hp.length_eq]

set_option maxRecDepth 100000 in
/-- Witness of C6: the jobs of the grouped scenario in reverse order, at width 50. Group 3
still comes before group 5 and the footers are those of the original order; inside group 5
the line of job 2 now comes before the line of job 1. -/
theorem printJobsByGroup_perm_witness :
    groupScenario.Model.jobs.Perm
      [bareJob 3 (lit "running") 3, bareJob 2 (lit "passed") 5, bareJob 1 (lit "failed") 5] ∧
    printJobsByGroup exampleClock
      { groupScenario with
        Model := (groupScenario.Model.Apply
          ([bareJob 3 (lit "running") 3, bareJob 2 (lit "passed") 5,
            bareJob 1 (lit "failed") 5])) }
      50
      = some (lit
        "=====  ====================\n\x1b[36mrunning     \x1b[0m \nTotal: 1, running: 1\n=====  ====================\n\x1b[32mpassed      \x1b[0m \n\x1b[31mfailed      \x1b[0m \nTotal: 2, failed: 1, passed: 1\n") ∧
    printJobsByGroup exampleClock groupScenario 50
      = some (lit
        "=====  ====================\n\x1b[36mrunning     \x1b[0m \nTotal: 1, running: 1\n=====  ====================\n\x1b[31mfailed      \x1b[0m \n\x1b[32mpassed      \x1b[0m \nTotal: 2, failed: 1, passed: 1\n") :=
  ⟨List.reverse_perm _ |>.symm,
    (printJobsByGroup_perm exampleClock groupScenario 50 _
      (List.reverse_perm _ |>.symm)).2.1.trans (by decide),
    (printJobsByGroup_perm exampleClock groupScenario 50 _
      (List.reverse_perm _ |>.symm)).1.trans (by decide)⟩

set_option maxRecDepth 100000 in
/-- C7: printJobsByGroup writes, for each group in strictly ascending order of the group
IDs that occur, the header, the lines of the visible jobs of the group and the footer:
`Total: n` with `n` the number of jobs of the group, then `, s: c` for each distinct state
`s` of the group in ascending lexicographic order with `c` its number of jobs, then
` (hidden: h)` exactly when the number `h` of hidden jobs is positive. In the scenario the
groups come in the order 3, 5 and the footer of group 5 is `Total: 2, failed: 1, passed: 1`. -/
theorem printJobsByGroup_footer (clk : Clock) (tui : TUI) (W : Int) :
    printJobsByGroup clk tui W = some (((sortedGroupIDs (groupJobs tui.Model.jobs)).map
      (fun g => groupHeader tui g
        ++ (((jobsOf tui.Model.jobs g).filter (fun j => !hideJob tui j)).map
              (lineOf clk W)).flatten
        ++ specFooter tui (jobsOf tui.Model.jobs g))).flatten) ∧
    (∀ j, printJob clk j W = some (lineOf clk W j)) ∧
    (sortedGroupIDs (groupJobs tui.Model.jobs)).Sorted (· < ·) ∧
    (∀ g, g ∈ sortedGroupIDs (groupJobs tui.Model.jobs) ↔ ∃ j ∈ tui.Model.jobs, j.GroupID = g) ∧
    (∀ js : List Job, (specStates js).Sorted (fun a b => strLE a b = true ∧ a ≠ b) ∧
      ∀ s, s ∈ specStates js ↔ ∃ j ∈ js, j.JobState = s) ∧
    sortedGroupIDs (groupJobs groupScenario.Model.jobs) = [3, 5] ∧
    specFooter groupScenario (jobsOf groupScenario.Model.jobs 5)
      = lit "Total: 2, failed: 1, passed: 1\n" ∧
    printJobsByGroup exampleClock groupScenario 100 = some (lit
      "=====  ====================\n\x1b[37m                    \x1b[0m           3 \x1b[36mrunning     \x1b[0m\x1b[37m                                          | \nTotal: 1, running: 1\n=====  ====================\n\x1b[31m                    \x1b[0m           1 \x1b[31mfailed      \x1b[0m\x1b[37m                                          | \n\x1b[31m                    \x1b[0m           2 \x1b[32mpassed      \x1b[0m\x1b[37m                                          | \nTotal: 2, failed: 1, passed: 1\n") := by
  refine ⟨printJobsByGroup_eq clk tui W, printJob_lineOf clk W, sortedGroupIDs_strict _,
    mem_sortedGroupIDs _, fun js => ⟨specStates_strict js, mem_specStates js⟩,
    by decide, by decide, by decide⟩

/-! ## Unsorted listing -/

/-- The loop of printJobs, started with `acc` already written. -/
theorem printJobs_fold (clk : Clock) (tui : TUI) (W : Int) (jobs : List Job) :
    ∀ acc : Str, ∃ lines : List Str,
      List.Forall₂ (fun job line => printJob clk job W = some line)
        (jobs.filter (fun job => !hideJob tui job)) lines ∧
      jobs.foldlM
        (fun out job =>
          if !hideJob tui job then do
            let line ← printJob clk job W
            pure (out ++ line)
          else pure out)
        acc = some (acc ++ lines.flatten) := by
  induction jobs with
  | nil => intro acc; exact ⟨[], by simp, by simp⟩
  | cons j jobs ih =>
    intro acc
    cases hj : hideJob tui j
    · obtain ⟨line, hl⟩ := printJob_total clk j W
      obtain ⟨lines, h1, h2⟩ := ih (acc ++ line)
      refine ⟨line :: lines, ?_, ?_⟩
      · simp [hj, hl, h1]
      · simpa [hj, hl] using h2
    · obtain ⟨lines, h1, h2⟩ := ih acc
      refine ⟨lines, ?_, ?_⟩
      · simp [hj, h1]
      · simpa [hj] using h2

set_option maxRecDepth 100000 in
/-- C8: printJobs writes the lines of the jobs that are not hidden, one line each, in the
order of the job sequence, and nothing else. In the scenario of two jobs, `running` and
`passed`, with `passed` hidden, at width 100 it writes the line of job 1 alone, whose
state column is `running` in cyan. -/
theorem printJobs_unsorted (clk : Clock) (tui : TUI) (W : Int) :
    (∃ lines : List Str,
      List.Forall₂ (fun job line => printJob clk job W = some line)
        (tui.Model.jobs.filter (fun job => !hideJob tui job)) lines ∧
      printJobs clk tui W = some lines.flatten) ∧
    hideJob hideScenario (bareJob 1 (lit "running") 0) = false ∧
    hideJob hideScenario (bareJob 2 (lit "passed") 0) = true ∧
    printJobs clk hideScenario 100 = printJob clk (bareJob 1 (lit "running") 0) 100 ∧
    printJob clk (bareJob 1 (lit "running") 0) 100
      = some (ANSI_WHITE ++ padLeft 20 (jobTimeText clk (bareJob 1 (lit "running") 0))
          ++ ANSI_RESET ++ lit "           1 " ++ ANSI_CYAN ++ lit "running     "
          ++ (ANSI_RESET ++ ANSI_WHITE)
          ++ lit "                                          | \n") ∧
    printJobs exampleClock hideScenario 100 = some (lit
      "\x1b[37m                    \x1b[0m           1 \x1b[36mrunning     \x1b[0m\x1b[37m                                          | \n") := by
  refine ⟨?_, by decide, by decide, ?_, ?_, by decide⟩
  · exact printJobs_fold clk tui W tui.Model.jobs []
  · have h1 : hideJob hideScenario (bareJob 1 (lit "running") 0) = false := by decide
    have h2 : hideJob hideScenario (bareJob 2 (lit "passed") 0) = true := by decide
    have hjobs : hideScenario.Model.jobs
        = [bareJob 1 (lit "running") 0, bareJob 2 (lit "passed") 0] := rfl
    obtain ⟨line, hl⟩ := printJob_total clk (bareJob 1 (lit "running") 0) 100
    unfold printJobs
    rw [hjobs]
    simp [h1, h2, hl]
  · rw [printJob_wide_eq clk _ 100 (by decide)]
    have e1 : jobDateColor clk (bareJob 1 (lit "running") 0) = ANSI_WHITE := by
      simp [jobDateColor, bareJob]
    have e2 : lit "    " ++ padLeft 8 (fmtInt (bareJob 1 (lit "running") 0).ID) ++ lit " "
        = lit "           1 " := by decide
    have e3 : getStateColorcode (bareJob 1 (lit "running") 0).JobState = ANSI_CYAN := by decide
    have e4 : padRight 12 (bareJob 1 (lit "running") 0).JobState = lit "running     " := by
      decide
    have e5 : lit " " ++ padLeft 40 (bareJob 1 (lit "running") 0).Link ++ lit " | "
        ++ List.take ((100 : Int) - 89).toNat (bareJob 1 (lit "running") 0).Name ++ lit "\n"
        = lit "                                          | \n" := by decide
    rw [e1, e3, e4, ← e2, ← e5]
    simp only [List.append_assoc]

/-! ## Model operations -/

/-- C9, a defect of the code: RemoveReviewedJob(1) on the reviewed list 1, 2, 3 leaves the
empty list, where removing the occurrences of 1 leaves 2, 3. The write index of the
compaction is never advanced. -/
theorem RemoveReviewedJob_drops_other_entries :
    (TUIModel.RemoveReviewedJob { jobs := [], reviewed := [1, 2, 3], jobGroups := [] } 1).reviewed
      = [] ∧
    [1, 2, 3].filter (fun id : Int => id ≠ 1) = [2, 3] := by
  decide


/-- C10: after Apply the job sequence of the model is the sequence handed in, whatever the
model held before and whatever the sequence holds (duplicate IDs, nothing at all). -/
theorem Apply_replaces_jobs (m : TUIModel) (js : List Job) :
    (m.Apply js).jobs = js ∧
    (m.Apply js).jobs.map Job.ID = js.map Job.ID ∧
    ∀ m2 : TUIModel, (m2.Apply js).jobs = (m.Apply js).jobs := by
  refine ⟨rfl, rfl, ?_⟩
  intro m2
  rfl

/-! ## Frame of the model operations -/

/-- C11: the reviewed list is independent of the job sequence. Apply leaves the reviewed
list and the job-group map as they were, so a reviewed id stays reviewed whatever the new
sequence holds; AddReviewedJob and RemoveReviewedJob leave the job sequence and the
job-group map as they were. -/
theorem model_operations_frame (m : TUIModel) (js : List Job) (id : Int) :
    (m.Apply js).reviewed = m.reviewed ∧
    (m.Apply js).jobGroups = m.jobGroups ∧
    (∀ r, r ∈ m.reviewed → (∀ j ∈ js, j.ID ≠ r) → r ∈ (m.Apply js).reviewed) ∧
    (m.AddReviewedJob id).jobs = m.jobs ∧
    (m.AddReviewedJob id).jobGroups = m.jobGroups ∧
    (m.RemoveReviewedJob id).jobs = m.jobs ∧
    (m.RemoveReviewedJob id).jobGroups = m.jobGroups := by
  refine ⟨rfl, rfl, ?_, rfl, rfl, rfl, rfl⟩
  intro r hr _
  exact hr

/-! ## Redraw and the terminal query -/

set_option maxRecDepth 100000 in
/-- C12, as stated, fails: when the terminal query fails (the system call returns -1),
Update clears the screen and writes the line of job 1 in the layout for 80 columns. -/
theorem Update_redraws_on_query_failure :
    terminalSize (-1) { Row := 0, Col := 0, Xpixel := 0, Ypixel := 0 } = (80, 24) ∧
    TUI.Update exampleClock hideScenario (-1) { Row := 0, Col := 0, Xpixel := 0, Ypixel := 0 }
      = some (hideScenario, lit
        "\x1b[2J\x1b[;H1                                        \x1b[36mrunning     \x1b[0m\x1b[37m | \n") ∧
    lit "\x1b[2J\x1b[;H1                                        \x1b[36mrunning     \x1b[0m\x1b[37m | \n"
      ≠ [] := by
  decide

/-- C12, amended: Update skips the redraw, writing nothing and leaving the state as it
is, when the width or the height it obtained is negative. The terminal query never gives
a negative value: when it fails, terminalSize answers the default of 80 columns and 24
rows, and Update writes the frame for width 80, leaving the state as it is. -/
theorem Update_skips_negative_size (clk : Clock) (tui : TUI) (W H : Int)
    (hneg : W < 0 ∨ H < 0) :
    TUI.UpdateAt clk tui W H = some (tui, []) ∧
    ∀ (ret : Int) (ws : winsize),
      (0 ≤ (terminalSize ret ws).1 ∧ 0 ≤ (terminalSize ret ws).2) ∧
      (ret ≠ 0 → terminalSize ret ws = (80, 24) ∧
        TUI.Update clk tui ret ws = some (tui, TUI.Clear ++ frameHead tui
          ++ jobListing clk tui 80 ++ frameStatus tui ++ frameTracker tui 80)) := by
  refine ⟨by simp [TUI.UpdateAt, hneg], ?_⟩
  intro ret ws
  refine ⟨terminalSize_nonneg ret ws, ?_⟩
  intro hret
  have hsize : terminalSize ret ws = (80, 24) := by simp [terminalSize, hret]
  refine ⟨hsize, ?_⟩
  rw [Update_eq, hsize]

/-- Witness of C12 (amended): a width of -1. -/
theorem Update_skips_negative_size_witness :
    ((-1 : Int) < 0 ∨ (24 : Int) < 0) ∧
    TUI.UpdateAt exampleClock hideScenario (-1) 24 = some (hideScenario, []) :=
  ⟨Or.inl (by decide),
    (Update_skips_negative_size exampleClock hideScenario (-1) 24 (Or.inl (by decide))).1⟩

/-! ## Colour of the date -/

theorem wrapInt64_of_range (x : Int) (hlo : -2 ^ 63 ≤ x) (hhi : x < 2 ^ 63) :
    wrapInt64 x = x := by
  unfold wrapInt64
  norm_num at hlo hhi ⊢
  omega

/-- C13, as stated, fails: for a timestamp of `-2^63` seconds the exact difference is far
above two days, but the int64 subtraction wraps to a negative value and getDateColorcode
returns white, not red. -/
theorem getDateColorcode_wraps :
    (clockAt 1793643131).Now - (-9223372036854775808 : Int) > 172800 ∧
    getDateColorcode (clockAt 1793643131) (-9223372036854775808) = ANSI_WHITE ∧
    ANSI_WHITE ≠ ANSI_RED := by
  decide

/-- C13, amended: provided the int64 subtraction does not overflow, that is
`-2^63 ≤ now - t < 2^63`, with `diff` the current time minus the timestamp in whole
seconds since the epoch, getDateColorcode returns red exactly when `diff > 172800`,
bright yellow exactly when `86400 < diff ≤ 172800`, and white exactly when
`diff ≤ 86400`, which covers an age of exactly one day and a timestamp in the future. -/
theorem getDateColorcode_thresholds (clk : Clock) (t : Int)
    (hlo : -2 ^ 63 ≤ clk.Now - t) (hhi : clk.Now - t < 2 ^ 63) :
    (getDateColorcode clk t = ANSI_RED ↔ clk.Now - t > 172800) ∧
    (getDateColorcode clk t = ANSI_BRIGHTYELLOW ↔
      (86400 < clk.Now - t ∧ clk.Now - t ≤ 172800)) ∧
    (getDateColorcode clk t = ANSI_WHITE ↔ clk.Now - t ≤ 86400) ∧
    getDateColorcode (clockAt (1609459200 + 86400)) 1609459200 = ANSI_WHITE ∧
    getDateColorcode (clockAt (1609459200 + 86401)) 1609459200 = ANSI_BRIGHTYELLOW ∧
    getDateColorcode (clockAt (1609459200 + 172800)) 1609459200 = ANSI_BRIGHTYELLOW ∧
    getDateColorcode (clockAt (1609459200 + 172801)) 1609459200 = ANSI_RED ∧
    getDateColorcode (clockAt (1609459200 - 1)) 1609459200 = ANSI_WHITE := by
  have e1 : ANSI_RED ≠ ANSI_BRIGHTYELLOW := by decide
  have e2 : ANSI_RED ≠ ANSI_WHITE := by decide
  have e3 : ANSI_BRIGHTYELLOW ≠ ANSI_WHITE := by decide
  have key : getDateColorcode clk t
      = if clk.Now - t > 172800 then ANSI_RED
        else if clk.Now - t > 86400 then ANSI_BRIGHTYELLOW else ANSI_WHITE := by
    simp only [getDateColorcode, wrapInt64_of_range _ hlo hhi]
    rfl
  refine ⟨?_, ?_, ?_, by decide, by decide, by decide, by decide, by decide⟩
  · rw [key]
    split_ifs with h1 h2
    · simp [h1]
    · simp [h1, e1.symm]
    · simp [h1, e2.symm]
  · rw [key]
    split_ifs with h1 h2
    · simp only [e1, false_iff]
      omega
    · simp only [true_iff]
      omega
    · simp only [e3.symm, false_iff]
      omega
  · rw [key]
    split_ifs with h1 h2
    · simp only [e2, false_iff]
      omega
    · simp only [e3, false_iff]
      omega
    · simp only [true_iff]
      omega

/-- Witness of C13 (amended): a finish time one day and one second old. -/
theorem getDateColorcode_thresholds_witness :
    -2 ^ 63 ≤ (clockAt (1609459200 + 86401)).Now - (1609459200 : Int) ∧
    (clockAt (1609459200 + 86401)).Now - (1609459200 : Int) < 2 ^ 63 ∧
    (getDateColorcode (clockAt (1609459200 + 86401)) 1609459200 = ANSI_BRIGHTYELLOW ↔
      (86400 < (clockAt (1609459200 + 86401)).Now - (1609459200 : Int) ∧
        (clockAt (1609459200 + 86401)).Now - (1609459200 : Int) ≤ 172800)) :=
  ⟨by decide, by decide,
    (getDateColorcode_thresholds (clockAt (1609459200 + 86401)) 1609459200
      (by decide) (by decide)).2.1⟩

/-! ## Frames of two calls -/

set_option maxRecDepth 100000 in
/-- C14, as stated, fails: two calls of Update on the same model, configuration and
terminal size, the second one second after the first, write different frames when the
age of a finish time passes one day in between (white date, then bright yellow date). -/
theorem Update_frames_differ_across_threshold :
    TUI.Update (clockAt (1609459200 + 86400)) exampleTUI 0
        { Row := 24, Col := 100, Xpixel := 0, Ypixel := 0 }
      = some (exampleTUI, lit
        "\x1b[2J\x1b[;H\x1b[37m 2021-01-01-00:00:00\x1b[0m        4711 \x1b[32mpassed      \x1b[0m\x1b[37m                 http://openqa/tests/4711 | opensuse-Tu\n") ∧
    TUI.Update (clockAt (1609459200 + 86401)) exampleTUI 0
        { Row := 24, Col := 100, Xpixel := 0, Ypixel := 0 }
      = some (exampleTUI, lit
        "\x1b[2J\x1b[;H\x1b[33;1m 2021-01-01-00:00:00\x1b[0m        4711 \x1b[32mpassed      \x1b[0m\x1b[37m                 http://openqa/tests/4711 | opensuse-Tu\n") ∧
    lit "\x1b[2J\x1b[;H\x1b[37m 2021-01-01-00:00:00\x1b[0m        4711 \x1b[32mpassed      \x1b[0m\x1b[37m                 http://openqa/tests/4711 | opensuse-Tu\n"
      ≠ lit "\x1b[2J\x1b[;H\x1b[33;1m 2021-01-01-00:00:00\x1b[0m        4711 \x1b[32mpassed      \x1b[0m\x1b[37m                 http://openqa/tests/4711 | opensuse-Tu\n" := by
  decide

/-- C14, amended: Update changes neither the model nor the configuration, and two calls
with the same model, configuration and terminal size write the same frame provided no
visible job changes its date colour between the two readings of the clock (as is the
case when both calls read the same second). -/
theorem Update_idempotent (clk1 clk2 : Clock) (tui : TUI) (ret : Int) (ws : winsize)
    (hP : clk1.Parse = clk2.Parse) (hF : clk1.Format = clk2.Format)
    (hC : ∀ j ∈ tui.Model.jobs, hideJob tui j = false →
      jobDateColor clk1 j = jobDateColor clk2 j) :
    ∃ out, TUI.Update clk1 tui ret ws = some (tui, out) ∧
      TUI.Update clk2 tui ret ws = some (tui, out) := by
  refine ⟨_, Update_eq clk1 tui ret ws, ?_⟩
  rw [Update_eq, jobListing_congr clk1 clk2 tui _ hP hF hC]

/-- Witness of C14 (amended): two readings of the clock, both between one and two days
after the finish time of the job. -/
theorem Update_idempotent_witness :
    (clockAt (1609459200 + 86401)).Parse = (clockAt (1609459200 + 90000)).Parse ∧
    (clockAt (1609459200 + 86401)).Format = (clockAt (1609459200 + 90000)).Format ∧
    (∀ j ∈ exampleTUI.Model.jobs, hideJob exampleTUI j = false →
      jobDateColor (clockAt (1609459200 + 86401)) j
        = jobDateColor (clockAt (1609459200 + 90000)) j) ∧
    ∃ out,
      TUI.Update (clockAt (1609459200 + 86401)) exampleTUI 0
          { Row := 24, Col := 100, Xpixel := 0, Ypixel := 0 } = some (exampleTUI, out) ∧
      TUI.Update (clockAt (1609459200 + 90000)) exampleTUI 0
          { Row := 24, Col := 100, Xpixel := 0, Ypixel := 0 } = some (exampleTUI, out) :=
  have hC : ∀ j ∈ exampleTUI.Model.jobs, hideJob exampleTUI j = false →
      jobDateColor (clockAt (1609459200 + 86401)) j
        = jobDateColor (clockAt (1609459200 + 90000)) j := by
    intro j hj _
    have : j = exampleJob := by simpa [exampleTUI, TUIModel.Apply] using hj
    subst this
    decide
  ⟨rfl, rfl, hC, Update_idempotent _ _ exampleTUI 0 _ rfl rfl hC⟩

/-! ## Lock discipline -/

/-- C15, a defect of the code: Update, Apply and the setters of sort mode, status, tracker,
tracker visibility and header make all their field accesses under the mutex, but SetHide
and SetHideStatus write the hide flag and the hide-status list without taking it, and
Update reads both fields. So a frame can meet a change of these two fields half-way. -/
theorem setters_lock_discipline :
    guarded Method.Update = true ∧ guarded Method.Apply = true ∧
    guarded Method.SetSorting = true ∧ guarded Method.SetStatus = true ∧
    guarded Method.SetTracker = true ∧ guarded Method.SetShowTracker = true ∧
    guarded Method.SetHeader = true ∧
    guarded Method.SetHide = false ∧ guarded Method.SetHideStatus = false ∧
    Access.write Field.hide ∈ accesses Method.SetHide ∧
    Access.write Field.hideStatus ∈ accesses Method.SetHideStatus ∧
    Access.read Field.hide ∈ accesses Method.Update ∧
    Access.read Field.hideStatus ∈ accesses Method.Update := by
  decide

/-! ## Choice of the timestamp -/

/-- C16: in the full line (the one layout that shows a timestamp), for a running job the
timestamp text comes from the start time, the finish time has no influence and the date
colour is white; for a job in any other state the timestamp comes from the finish time
(the epoch when it does not parse), the start time has no influence and the colour is the
one getDateColorcode gives; for a scheduled job and for a job whose selected timestamp
does not parse the timestamp text is empty. -/
theorem printJob_timestamp (clk : Clock) (job : Job) (W : Int) (hW : 90 < W) :
    printJob clk job W = some (jobDateColor clk job ++ padLeft 20 (jobTimeText clk job)
      ++ ANSI_RESET ++ lit "    " ++ padLeft 8 (fmtInt job.ID) ++ lit " "
      ++ getStateColorcode job.JobState ++ padRight 12 job.JobState
      ++ (ANSI_RESET ++ ANSI_WHITE) ++ lit " " ++ padLeft 40 job.Link ++ lit " | "
      ++ job.Name.take (W - 89).toNat ++ lit "\n") ∧
    (job.JobState = lit "running" →
      jobDateColor clk job = ANSI_WHITE ∧
      jobTimeText clk job
        = (match clk.Parse job.Tstarted with
           | some t => if t > 0 then clk.Format t else []
           | none => []) ∧
      ∀ fin : Str, printJob clk { job with Tfinished := fin } W = printJob clk job W) ∧
    (job.JobState ≠ lit "running" →
      jobDateColor clk job = getDateColorcode clk ((clk.Parse job.Tfinished).getD 0) ∧
      jobTimeText clk job
        = (if job.JobState ≠ lit "scheduled" ∧ (clk.Parse job.Tfinished).getD 0 > 0
           then clk.Format ((clk.Parse job.Tfinished).getD 0) else []) ∧
      ∀ st : Str, printJob clk { job with Tstarted := st } W = printJob clk job W) ∧
    (job.JobState = lit "scheduled" → jobTimeText clk job = []) ∧
    (job.JobState = lit "running" → clk.Parse job.Tstarted = none →
      jobTimeText clk job = []) ∧
    (job.JobState ≠ lit "running" → clk.Parse job.Tfinished = none →
      jobTimeText clk job = []) := by
  have hne : lit "running" ≠ lit "scheduled" := by decide
  refine ⟨printJob_wide_eq clk job W hW, ?_, ?_, ?_, ?_, ?_⟩
  · intro hr
    refine ⟨by simp [jobDateColor, hr], ?_, ?_⟩
    · simp only [jobTimeText, jobTimestamp, hr, if_true]
      cases clk.Parse job.Tstarted with
      | none => simp [zeroTimeUnix]
      | some t => simp [hne]
    · intro fin
      rw [printJob_wide_eq clk job W hW, printJob_wide_eq clk _ W hW]
      simp [jobDateColor, jobTimeText, jobTimestamp, hr]
  · intro hr
    refine ⟨?_, ?_, ?_⟩
    · simp only [jobDateColor, jobTimestamp, hr, if_false]
      cases clk.Parse job.Tfinished <;> rfl
    · simp only [jobTimeText, jobTimestamp, hr, if_false]
      cases clk.Parse job.Tfinished <;> rfl
    · intro st
      rw [printJob_wide_eq clk job W hW, printJob_wide_eq clk _ W hW]
      simp [jobDateColor, jobTimeText, jobTimestamp, hr]
  · intro hs
    simp [jobTimeText, hs]
  · intro hr hp
    simp [jobTimeText, jobTimestamp, hr, hp, zeroTimeUnix]
  · intro hr hp
    simp [jobTimeText, jobTimestamp, hr, hp]

set_option maxRecDepth 100000 in
/-- Witness of C16: a running job with a start time and no finish time, at width 100. -/
theorem printJob_timestamp_witness :
    (90 : Int) < 100 ∧
    printJob exampleClock { exampleJob with JobState := lit "running", Tfinished := [] } 100
      = some (lit
      "\x1b[37m 2021-01-01-00:00:00\x1b[0m        4711 \x1b[36mrunning     \x1b[0m\x1b[37m                 http://openqa/tests/4711 | opensuse-Tu\n") :=
  ⟨by decide,
    (printJob_timestamp exampleClock
      { exampleJob with JobState := lit "running", Tfinished := [] } 100 (by decide)).1.trans
      (by decide)⟩

/-! ## Tracker line -/

/-- C17: when the tracker is shown and not empty, on a terminal of `W ≥ 0` columns the
frame of Update ends in the tracker line and a newline, and the tracker line has exactly
`W` bytes: `W - len(tracker)` blanks followed by the whole tracker text when
`len(tracker) ≤ W`, and the first `W` bytes of the tracker text otherwise. The width that
Update obtains from terminalSize is never negative. -/
theorem Update_tracker_line (clk : Clock) (tui : TUI) (W H : Int) (hW : 0 ≤ W) (hH : 0 ≤ H)
    (hshow : tui.showTracker = true) (hne : tui.tracker ≠ []) :
    TUI.UpdateAt clk tui W H = some (tui, TUI.Clear ++ frameHead tui ++ jobListing clk tui W
      ++ frameStatus tui
      ++ ((if tui.showStatus = true ∧ tui.status ≠ [] then [] else lit "\n")
          ++ (trackerLine tui W ++ lit "\n"))) ∧
    ((trackerLine tui W).length : Int) = W ∧
    ((tui.tracker.length : Int) ≤ W →
      trackerLine tui W = spaces (W - (tui.tracker.length : Int)) ++ tui.tracker ∧
      spaces (W - (tui.tracker.length : Int))
        = List.replicate (W - (tui.tracker.length : Int)).toNat 32 ∧
      (((W - (tui.tracker.length : Int)).toNat : Nat) : Int) = W - (tui.tracker.length : Int)) ∧
    (W < (tui.tracker.length : Int) → trackerLine tui W = tui.tracker.take W.toNat) ∧
    (∀ (ret : Int) (ws : winsize),
      TUI.Update clk tui ret ws
        = TUI.UpdateAt clk tui (terminalSize ret ws).1 (terminalSize ret ws).2 ∧
      0 ≤ (terminalSize ret ws).1 ∧ 0 ≤ (terminalSize ret ws).2) := by
  refine ⟨?_, ?_, ?_, ?_, ?_⟩
  · rw [UpdateAt_eq clk tui W H hW hH]
    simp [frameTracker, hshow, hne]
  · unfold trackerLine
    split_ifs with h
    · rw [List.length_append, List.length_replicate]
      omega
    · rw [List.length_take]
      omega
  · intro h
    refine ⟨by simp [trackerLine, h, spaces], rfl, by omega⟩
  · intro h
    have : ¬ (tui.tracker.length : Int) ≤ W := by omega
    simp [trackerLine, this]
  · intro ret ws
    exact ⟨rfl, terminalSize_nonneg ret ws⟩

set_option maxRecDepth 100000 in
/-- Witness of C17: a tracker text of 12 bytes on a terminal of 5 columns is cut to its
first 5 bytes. -/
theorem Update_tracker_line_witness :
    (0 : Int) ≤ 5 ∧ (0 : Int) ≤ 24 ∧
    (hideScenario.SetTracker (lit "tracker text")).showTracker = true ∧
    (hideScenario.SetTracker (lit "tracker text")).tracker ≠ [] ∧
    TUI.UpdateAt exampleClock (hideScenario.SetTracker (lit "tracker text")) 5 24
      = some (hideScenario.SetTracker (lit "tracker text"),
          lit "\x1b[2J\x1b[;H\x1b[36mrunning     \x1b[0m \n\ntrack\n") :=
  ⟨by decide, by decide, by decide, by decide,
    (Update_tracker_line exampleClock (hideScenario.SetTracker (lit "tracker text")) 5 24
      (by decide) (by decide) (by decide) (by decide)).1.trans (by decide)⟩

/-! ## Slices of the name -/

/-- C18: printJob never slices out of range. For every width, negative ones included, and
every name, the empty one included, printJob writes a line, and wherever one of the three
layouts cuts the name the end of the slice lies between 0 and the length of the name. -/
theorem printJob_slices_in_range (clk : Clock) (job : Job) (W : Int) :
    (∃ line, printJob clk job W = some line) ∧
    (W > 90 → W < 89 + (job.Name.length : Int) →
      0 ≤ W - 89 ∧ W - 89 ≤ (job.Name.length : Int) ∧
      sliceTo job.Name (W - 89) = some (job.Name.take (W - 89).toNat)) ∧
    (¬ W > 90 → W > 60 → W < 58 + (job.Name.length : Int) →
      0 ≤ W - 58 ∧ W - 58 ≤ (job.Name.length : Int) ∧
      sliceTo job.Name (W - 58) = some (job.Name.take (W - 58).toNat)) ∧
    (¬ W > 60 → 13 + (job.Name.length : Int) > W → W > 13 →
      0 ≤ W - 13 ∧ W - 13 ≤ (job.Name.length : Int) ∧
      sliceTo job.Name (W - 13) = some (job.Name.take (W - 13).toNat)) := by
  refine ⟨printJob_total clk job W, ?_, ?_, ?_⟩
  · intro h1 h2
    exact ⟨by omega, by omega, sliceTo_eq _ _ (by omega) (by omega)⟩
  · intro h1 h2 h3
    exact ⟨by omega, by omega, sliceTo_eq _ _ (by omega) (by omega)⟩
  · intro h1 h2 h3
    exact ⟨by omega, by omega, sliceTo_eq _ _ (by omega) (by omega)⟩

/-! ## Compaction of the reviewed list -/

theorem removeStep_index (job : Int) (st : List Int × Nat) (k : Nat) :
    (removeStep job st k).2 = st.2 := by
  simp only [removeStep]
  split_ifs <;> rfl

theorem removeLoop_index (job : Int) (ks : List Nat) :
    ∀ st : List Int × Nat, (ks.foldl (removeStep job) st).2 = st.2 := by
  induction ks with
  | nil => intro st; rfl
  | cons k ks ih =>
    intro st
    rw [List.foldl_cons, ih, removeStep_index]

/-- C19: RemoveReviewedJob leaves the reviewed list empty, for every list and every id,
whether the id occurs in the list or not: the write index stays 0 through the loop. -/
theorem RemoveReviewedJob_empties (m : TUIModel) (id : Int) :
    (m.RemoveReviewedJob id).reviewed = [] ∧
    ((List.range m.reviewed.length).foldl (removeStep id) (m.reviewed, 0)).2 = 0 := by
  have h := removeLoop_index id (List.range m.reviewed.length) (m.reviewed, 0)
  refine ⟨?_, h⟩
  unfold TUIModel.RemoveReviewedJob
  simp only [h]
  rfl

/-! ## Width of the line in the three layouts -/

/-- C20: on a terminal of at least 13 columns, for a job whose state has at most 12 bytes,
whose link has at most 40 bytes and whose ID lies between 0 and 99999999, the line of
printJob without its colour codes and its newline has at most `W` characters, in each of
the three layouts. The timestamp text is taken to have at most 20 characters, which holds
for the 19 characters of the layout `2006-01-02-15:04:05`. -/
theorem printJob_fits_width (clk : Clock) (job : Job) (W : Int) (h13 : 13 ≤ W)
    (hs : job.JobState.length ≤ 12) (hl : job.Link.length ≤ 40)
    (h0 : 0 ≤ job.ID) (h1 : job.ID ≤ 99999999)
    (hfmt : ∀ t, RuneCountInString (clk.Format t) ≤ 20) :
    (90 < W →
      printJob clk job W = some (renderSegs (wideSegs clk job W) ++ lit "\n") ∧
      (RuneCountInString (visibleSegs (wideSegs clk job W)) : Int) ≤ W) ∧
    (60 < W → W ≤ 90 →
      printJob clk job W = some (renderSegs (mediumSegs job W) ++ lit "\n") ∧
      (RuneCountInString (visibleSegs (mediumSegs job W)) : Int) ≤ W) ∧
    (W ≤ 60 →
      printJob clk job W = some (renderSegs (narrowSegs job W) ++ lit "\n") ∧
      (RuneCountInString (visibleSegs (narrowSegs job W)) : Int) ≤ W) := by
  have hstate : RuneCountInString job.JobState ≤ 12 :=
    Nat.le_trans (runeCount_le_length _) hs
  have hlink : RuneCountInString job.Link ≤ 40 :=
    Nat.le_trans (runeCount_le_length _) hl
  have hid := fmtInt_length job.ID h0 h1
  have hidr : RuneCountInString (fmtInt job.ID) = (fmtInt job.ID).length :=
    runeCount_ascii _ (fmtInt_ascii job.ID)
  have e1 : lit " " = [32] := by decide
  have e3 : lit " | " = [32, 124, 32] := by decide
  have e4 : lit "    " = [32, 32, 32, 32] := by decide
  have hP12 := runeCount_padRight 12 job.JobState hstate
  refine ⟨?_, ?_, ?_⟩
  · intro hW
    constructor
    · rw [printJob_wide_eq clk job W hW]
      simp [renderSegs, wideSegs, Seg.bytes]
    · have htext : RuneCountInString (jobTimeText clk job) ≤ 20 := by
        simp only [jobTimeText]
        split_ifs
        · exact hfmt _
        · simp [runeCount_nil]
      have hcut : RuneCountInString (job.Name.take (W - 89).toNat) ≤ (W - 89).toNat :=
        Nat.le_trans (runeCount_le_length _) (by rw [List.length_take]; exact Nat.min_le_left _ _)
      have hA : ∀ x ∈ lit "    " ++ padLeft 8 (fmtInt job.ID) ++ lit " ", x < 128 := by
        intro x hx
        simp only [e4, e1, padLeft, List.mem_append, List.mem_cons, List.mem_replicate,
          List.mem_singleton, List.not_mem_nil, or_false] at hx
        rcases hx with (hx | hx | hx) | hx
        · rcases hx with rfl | rfl | rfl | rfl <;> decide
        · rw [hx.2]; decide
        · exact fmtInt_ascii job.ID x hx
        · rw [hx]; decide
      have hAlen : (lit "    " ++ padLeft 8 (fmtInt job.ID) ++ lit " ").length = 13 := by
        simp only [e4, e1, padLeft, List.length_append, List.length_replicate,
          List.length_cons, List.length_nil, hidr]
        omega
      have e : visibleSegs (wideSegs clk job W)
          = padLeft 20 (jobTimeText clk job)
            ++ ((lit "    " ++ padLeft 8 (fmtInt job.ID) ++ lit " ")
            ++ (padRight 12 job.JobState
            ++ (32 :: (padLeft 40 job.Link
            ++ (32 :: 124 :: 32 :: job.Name.take (W - 89).toNat))))) := by
        simp [visibleSegs, wideSegs, Seg.shown, e1, e3]
      rw [e, runeCount_append_head _ _ (by simp [e4]), runeCount_padLeft 20 _ htext,
        runeCount_ascii_append _ _ hA, hAlen,
        runeCount_append_head _ _ (by simp), hP12,
        runeCount_cons_ascii 32 _ (by decide),
        runeCount_append_head _ _ (by simp), runeCount_padLeft 40 _ hlink,
        runeCount_cons_ascii 32 _ (by decide), runeCount_cons_ascii 124 _ (by decide),
        runeCount_cons_ascii 32 _ (by decide)]
      omega
  · intro h60 h90
    constructor
    · rw [printJob_medium_eq clk job W h60 h90]
      simp [renderSegs, mediumSegs, Seg.bytes]
    · have hL : RuneCountInString
          (if job.Link = [] then padRight 40 (fmtInt job.ID) else padLeft 40 job.Link) = 40 := by
        split_ifs
        · exact runeCount_padRight 40 _ (by omega)
        · exact runeCount_padLeft 40 _ hlink
      have hcut : RuneCountInString
          (if 58 + (job.Name.length : Int) ≤ W then job.Name
           else job.Name.take (W - 58).toNat) ≤ (W - 58).toNat := by
        split_ifs with h
        · exact Nat.le_trans (runeCount_le_length _) (by omega)
        · exact Nat.le_trans (runeCount_le_length _)
            (by rw [List.length_take]; exact Nat.min_le_left _ _)
      have e : visibleSegs (mediumSegs job W)
          = (if job.Link = [] then padRight 40 (fmtInt job.ID) else padLeft 40 job.Link)
            ++ (32 :: (padRight 12 job.JobState
            ++ (32 :: 124 :: 32 ::
              (if 58 + (job.Name.length : Int) ≤ W then job.Name
               else job.Name.take (W - 58).toNat)))) := by
        simp [visibleSegs, mediumSegs, Seg.shown, e1, e3]
      rw [e, runeCount_append_head _ _ (by simp), hL,
        runeCount_cons_ascii 32 _ (by decide),
        runeCount_append_head _ _ (by simp), hP12,
        runeCount_cons_ascii 32 _ (by decide), runeCount_cons_ascii 124 _ (by decide),
        runeCount_cons_ascii 32 _ (by decide)]
      omega
  · intro h60
    constructor
    · rw [printJob_narrow_eq clk job W h60]
      simp [renderSegs, narrowSegs, Seg.bytes]
    · have hcut : RuneCountInString (job.Name.take (W - 13).toNat) ≤ (W - 13).toNat :=
        Nat.le_trans (runeCount_le_length _) (by rw [List.length_take]; exact Nat.min_le_left _ _)
      have e : visibleSegs (narrowSegs job W)
          = padRight 12 job.JobState ++ (32 :: job.Name.take (W - 13).toNat) := by
        simp [visibleSegs, narrowSegs, Seg.shown, e1]
      rw [e, runeCount_append_head _ _ (by simp), hP12,
        runeCount_cons_ascii 32 _ (by decide)]
      omega

/-- Witness of C20: the finished job of the examples at width 100. -/
theorem printJob_fits_width_witness :
    (13 : Int) ≤ 100 ∧ exampleJob.JobState.length ≤ 12 ∧ exampleJob.Link.length ≤ 40 ∧
    0 ≤ exampleJob.ID ∧ exampleJob.ID ≤ 99999999 ∧
    (∀ t, RuneCountInString (exampleClock.Format t) ≤ 20) ∧
    (RuneCountInString (visibleSegs (wideSegs exampleClock exampleJob 100)) : Int) ≤ 100 :=
  have hfmt : ∀ t, RuneCountInString (exampleClock.Format t) ≤ 20 := by
    intro t
    by_cases h : t = 1609459200
    · subst h; decide
    · simp [exampleClock, h, runeCount_nil]
  ⟨by decide, by decide, by decide, by decide, by decide, hfmt,
    ((printJob_fits_width exampleClock exampleJob 100 (by decide) (by decide) (by decide)
      (by decide) (by decide) hfmt).1 (by decide)).2⟩

end OpenqaReview
